import Mathlib

/-!
Verification of the browser-automation-toolkit command relay and framed codec.

The embedding models, from the Python sources:
  * `src/native-host/host.py`: the Chrome native-messaging framed codec
    (`read_native_message` / `write_native_message`, built on `json.loads`,
    `json.dumps`, UTF-8, and a 4-byte little-endian length header) and the
    `NativeHostHandler.do_POST` HTTP handler;
  * `src/command-server.py`: the single-slot HTTP relay (`CommandHandler`),
    with shared state `pending_command`, `pending_result`, `result_event`.

Strings are modelled as lists of Unicode code points (`List Nat`), byte
streams as lists of bytes (`List Nat`, each < 256).  JSON values carry
arbitrary-precision integers, as Python ints do; floating-point payloads are
outside the model.  All functions are written with structural or fuel-based
recursion so that they evaluate inside the kernel.
-/

/-- Code points of a Lean string literal, used to write concrete inputs. -/
def strCps (s : String) : List Nat :=
  s.data.map Char.toNat

/-- Decimal digit test on a code point, as in the JSON number grammar. -/
def isDigitCp (c : Nat) : Bool :=
  48 ≤ c && c ≤ 57

/-- JSON whitespace (space, tab, newline, carriage return), as skipped by
`json.loads`. -/
def isWsCp (c : Nat) : Bool :=
  c == 32 || c == 9 || c == 10 || c == 13

/-- Skip leading JSON whitespace. -/
def skipWs (s : List Nat) : List Nat :=
  s.dropWhile isWsCp

/-- Digits of a positive integer, most significant first, by repeated
division; the fuel argument makes the recursion structural.  Mirrors the
decimal form that `json.dumps` emits for Python ints. -/
def natDecimalAux : Nat → Nat → List Nat
  | 0, _ => []
  | fuel + 1, n => if n = 0 then [] else natDecimalAux fuel (n / 10) ++ [48 + n % 10]

/-- Decimal code points of a natural number, as printed by `json.dumps`. -/
def natDecimal (n : Nat) : List Nat :=
  if n = 0 then [48] else natDecimalAux n n

/-- Decimal code points of a Python int, with a leading minus sign when
negative, as printed by `json.dumps`. -/
def intDecimal (n : Int) : List Nat :=
  if n < 0 then 45 :: natDecimal n.natAbs else natDecimal n.natAbs

/-- Value accumulated from a run of decimal digit code points, most
significant first. -/
def digitsValue : List Nat → Nat → Nat
  | [], acc => acc
  | d :: r, acc => digitsValue r (acc * 10 + (d - 48))

/-- Lowercase hexadecimal digit, as used by the `\uXXXX` escapes of
`json.dumps(ensure_ascii=True)`. -/
def hexDigit (d : Nat) : Nat :=
  if d < 10 then 48 + d else 87 + d

/-- Four lowercase hex digits of a value below 0x10000. -/
def hex4 (n : Nat) : List Nat :=
  [hexDigit (n / 4096 % 16), hexDigit (n / 256 % 16), hexDigit (n / 16 % 16), hexDigit (n % 16)]

/-- Numeric value of one hex digit code point, upper or lower case, as
accepted by the `json.loads` string scanner. -/
def hexVal (c : Nat) : Option Nat :=
  if 48 ≤ c && c ≤ 57 then some (c - 48)
  else if 97 ≤ c && c ≤ 102 then some (c - 87)
  else if 65 ≤ c && c ≤ 70 then some (c - 55)
  else none

/-- Escape of one string character by `json.dumps` with its default
`ensure_ascii=True`: the two-character escapes, `\u00xx` for other control
characters, printable ASCII verbatim, `\uxxxx` for the BMP, and a surrogate
pair of escapes above the BMP. -/
def escChar (c : Nat) : List Nat :=
  if c = 34 then [92, 34]
  else if c = 92 then [92, 92]
  else if c = 8 then [92, 98]
  else if c = 9 then [92, 116]
  else if c = 10 then [92, 110]
  else if c = 12 then [92, 102]
  else if c = 13 then [92, 114]
  else if c < 32 then 92 :: 117 :: hex4 c
  else if c < 127 then [c]
  else if c < 65536 then 92 :: 117 :: hex4 c
  else 92 :: 117 :: hex4 (55296 + (c - 65536) / 1024) ++ (92 :: 117 :: hex4 (56320 + (c - 65536) % 1024))

/-- Escaped body of a JSON string literal. -/
def escString : List Nat → List Nat
  | [] => []
  | c :: r => escChar c ++ escString r

mutual
/-- JSON values as produced by `json.loads` and consumed by `json.dumps` in
the sources: `None`, booleans, ints, strings, lists and string-keyed dicts.
Dicts are modelled as insertion-ordered association lists, matching the
order `json.dumps` prints.  Floats are outside the model. -/
inductive Json where
  | null : Json
  | bool (b : Bool) : Json
  | int (n : Int) : Json
  | str (s : List Nat) : Json
  | arr (xs : JsonList) : Json
  | obj (kvs : JsonObj) : Json
/-- Element list of a JSON array. -/
inductive JsonList where
  | nil : JsonList
  | cons (hd : Json) (tl : JsonList) : JsonList
/-- Key/value list of a JSON object. -/
inductive JsonObj where
  | nil : JsonObj
  | cons (k : List Nat) (v : Json) (tl : JsonObj) : JsonObj
end

/-- Serialized form of one object key together with the default
`': '` key separator of `json.dumps`. -/
def keyDump (k : List Nat) : List Nat :=
  34 :: escString k ++ [34, 58, 32]

mutual
/-- `json.dumps` with its defaults: separators `', '` and `': '`,
`ensure_ascii=True`.  Returns the code points of the produced string. -/
def dumpsVal : Json → List Nat
  | .null => [110, 117, 108, 108]
  | .bool true => [116, 114, 117, 101]
  | .bool false => [102, 97, 108, 115, 101]
  | .int n => intDecimal n
  | .str s => 34 :: escString s ++ [34]
  | .arr .nil => [91, 93]
  | .arr (.cons v tl) => 91 :: (dumpsVal v ++ dumpsItems tl ++ [93])
  | .obj .nil => [123, 125]
  | .obj (.cons k v tl) => 123 :: (keyDump k ++ dumpsVal v ++ dumpsMembers tl ++ [125])
/-- Remaining array elements, each preceded by the `', '` separator. -/
def dumpsItems : JsonList → List Nat
  | .nil => []
  | .cons v tl => 44 :: 32 :: (dumpsVal v ++ dumpsItems tl)
/-- Remaining object members, each preceded by the `', '` separator. -/
def dumpsMembers : JsonObj → List Nat
  | .nil => []
  | .cons k v tl => 44 :: 32 :: (keyDump k ++ dumpsVal v ++ dumpsMembers tl)
end

/-- The code points of `json.dumps` applied to a value. -/
def json_dumps (v : Json) : List Nat :=
  dumpsVal v

/-- A well-formed character: a Unicode scalar value (below 0x110000 and not
a surrogate).  JSON-representable strings consist of these. -/
def wfChar (c : Nat) : Bool :=
  c < 1114112 && (c < 55296 || 57344 ≤ c)

/-- All characters of a string are Unicode scalar values. -/
def wfStr (s : List Nat) : Bool :=
  s.all wfChar

mutual
/-- Well-formedness of a JSON value: every string is a sequence of Unicode
scalar values. -/
def wfVal : Json → Bool
  | .null => true
  | .bool _ => true
  | .int _ => true
  | .str s => wfStr s
  | .arr xs => wfItems xs
  | .obj kvs => wfMembers kvs
/-- Well-formedness of array elements. -/
def wfItems : JsonList → Bool
  | .nil => true
  | .cons v tl => wfVal v && wfItems tl
/-- Well-formedness of object members. -/
def wfMembers : JsonObj → Bool
  | .nil => true
  | .cons k v tl => wfStr k && wfVal v && wfMembers tl
end

/-- One `\\uXXXX` escape unit, scanned after the `\\u`: four hex digits,
with surrogate-pair combination (a high surrogate whose escape is directly
followed by a `\\u` low-surrogate escape yields one code point; an unpaired
surrogate escape is kept as-is, as CPython does).  Returns the code point
and the unconsumed suffix. -/
def parseUEscape (r1 : List Nat) : Option (Nat × List Nat) :=
  match r1 with
  | h1 :: h2 :: h3 :: h4 :: r2 =>
    match hexVal h1, hexVal h2, hexVal h3, hexVal h4 with
    | some d1, some d2, some d3, some d4 =>
      let u := d1 * 4096 + d2 * 256 + d3 * 16 + d4
      if 55296 ≤ u && u < 56320 then
        match r2 with
        | 92 :: 117 :: g1 :: g2 :: g3 :: g4 :: r3 =>
          match hexVal g1, hexVal g2, hexVal g3, hexVal g4 with
          | some e1, some e2, some e3, some e4 =>
            let u2 := e1 * 4096 + e2 * 256 + e3 * 16 + e4
            if 56320 ≤ u2 && u2 < 57344 then
              some (65536 + (u - 55296) * 1024 + (u2 - 56320), r3)
            else some (u, r2)
          | _, _, _, _ => some (u, r2)
        | _ => some (u, r2)
      else some (u, r2)
    | _, _, _, _ => none
  | _ => none

/-- One escape, scanned after the backslash: the named single-character
escapes and the `\\uXXXX` form. -/
def parseEscape (e : Nat) (r1 : List Nat) : Option (Nat × List Nat) :=
  if e = 34 then some (34, r1)
  else if e = 92 then some (92, r1)
  else if e = 47 then some (47, r1)
  else if e = 98 then some (8, r1)
  else if e = 116 then some (9, r1)
  else if e = 110 then some (10, r1)
  else if e = 102 then some (12, r1)
  else if e = 114 then some (13, r1)
  else if e = 117 then parseUEscape r1
  else none

/-- Body of a JSON string literal, scanned after the opening quote, as by
the `json.loads` string scanner: plain characters up to the closing quote,
and backslash escapes.  Control characters must be escaped
(`strict=True`).  Fuel bounds the recursion; one unit per consumed
character is enough. -/
def parseStringBody : Nat → List Nat → Option (List Nat × List Nat)
  | 0, _ => none
  | fuel + 1, s =>
    match s with
    | [] => none
    | c :: r =>
      if c = 34 then some ([], r)
      else if c = 92 then
        match r with
        | [] => none
        | e :: r1 =>
          match parseEscape e r1 with
          | some (u, r2) => (parseStringBody fuel r2).map (fun p => (u :: p.1, p.2))
          | none => none
      else if c < 32 then none
      else (parseStringBody fuel r).map (fun p => (c :: p.1, p.2))

/-- A maximal run of decimal digits and its value; fails on an empty run.
Used for the integer number grammar (the scripts exchange no floats). -/
def parseDigits (s : List Nat) : Option (Nat × List Nat) :=
  match s.takeWhile isDigitCp with
  | [] => none
  | ds => some (digitsValue ds 0, s.dropWhile isDigitCp)

mutual
/-- One JSON value at the head of the input (leading whitespace already
skipped), in the style of the `json.loads` scanner; returns the value and
the unconsumed suffix.  Fuel bounds the nesting recursion. -/
def parseVal : Nat → List Nat → Option (Json × List Nat)
  | 0, _ => none
  | _ + 1, [] => none
  | fuel + 1, c :: r =>
    if c = 34 then
      (parseStringBody (r.length + 1) r).map (fun p => (Json.str p.1, p.2))
    else if c = 91 then
      let r1 := skipWs r
      if r1.headD 0 = 93 then some (Json.arr .nil, r1.tail)
      else (parseItems fuel r1).map (fun p => (Json.arr p.1, p.2))
    else if c = 123 then
      let r1 := skipWs r
      if r1.headD 0 = 125 then some (Json.obj .nil, r1.tail)
      else (parseMembers fuel r1).map (fun p => (Json.obj p.1, p.2))
    else if c = 116 then
      match r with
      | 114 :: 117 :: 101 :: r2 => some (Json.bool true, r2)
      | _ => none
    else if c = 102 then
      match r with
      | 97 :: 108 :: 115 :: 101 :: r2 => some (Json.bool false, r2)
      | _ => none
    else if c = 110 then
      match r with
      | 117 :: 108 :: 108 :: r2 => some (Json.null, r2)
      | _ => none
    else if c = 45 then
      (parseDigits r).map (fun p => (Json.int (-(p.1 : Int)), p.2))
    else if isDigitCp c then
      (parseDigits (c :: r)).map (fun p => (Json.int (p.1 : Int), p.2))
    else none
/-- A nonempty comma-separated element sequence followed by `]`. -/
def parseItems : Nat → List Nat → Option (JsonList × List Nat)
  | 0, _ => none
  | fuel + 1, s =>
    match parseVal fuel s with
    | none => none
    | some (v, r) =>
      let r1 := skipWs r
      if r1.headD 0 = 44 then
        (parseItems fuel (skipWs r1.tail)).map (fun p => (JsonList.cons v p.1, p.2))
      else if r1.headD 0 = 93 then some (JsonList.cons v .nil, r1.tail)
      else none
/-- A nonempty comma-separated member sequence followed by a closing brace. -/
def parseMembers : Nat → List Nat → Option (JsonObj × List Nat)
  | 0, _ => none
  | fuel + 1, s =>
    match s with
    | 34 :: kr =>
      match parseStringBody (kr.length + 1) kr with
      | none => none
      | some (k, r1) =>
        match skipWs r1 with
        | 58 :: r2 =>
          match parseVal fuel (skipWs r2) with
          | none => none
          | some (v, r3) =>
            let r4 := skipWs r3
            if r4.headD 0 = 44 then
              (parseMembers fuel (skipWs r4.tail)).map (fun p => (JsonObj.cons k v p.1, p.2))
            else if r4.headD 0 = 125 then some (JsonObj.cons k v .nil, r4.tail)
            else none
        | _ => none
    | _ => none
end

/-- `json.loads` on a decoded string: skip whitespace, scan one value,
require only whitespace to remain.  The fuel handed to the scanner exceeds
any rank a value serialized into the input can have. -/
def json_loads (s : List Nat) : Option Json :=
  let s1 := skipWs s
  match parseVal (s1.length + 1) s1 with
  | some (v, rest) => if skipWs rest = [] then some v else none
  | none => none

deriving instance DecidableEq for Json

/-- UTF-8 encoding of one code point (1 to 4 bytes). -/
def utf8EncodeChar (c : Nat) : List Nat :=
  if c < 128 then [c]
  else if c < 2048 then [192 + c / 64, 128 + c % 64]
  else if c < 65536 then [224 + c / 4096, 128 + c / 64 % 64, 128 + c % 64]
  else [240 + c / 262144, 128 + c / 4096 % 64, 128 + c / 64 % 64, 128 + c % 64]

/-- UTF-8 encoding of a string given as code points.  `str.encode('utf-8')`
in the sources is only ever applied to `json.dumps` output, which is pure
ASCII, so the non-scalar error cases of CPython cannot arise there. -/
def utf8Encode : List Nat → List Nat
  | [] => []
  | c :: r => utf8EncodeChar c ++ utf8Encode r

/-- Decoding of one multi-byte UTF-8 sequence, given its lead byte and the
following bytes: rejects stray continuation bytes, overlong forms,
surrogates, values above 0x10FFFF and truncated sequences.  Returns the
code point and the unconsumed suffix. -/
def utf8DecodeMulti (b : Nat) (rest : List Nat) : Option (Nat × List Nat) :=
  if b < 194 then none
  else if b < 224 then
    match rest with
    | b1 :: r =>
      if 128 ≤ b1 && b1 < 192 then some ((b - 192) * 64 + (b1 - 128), r) else none
    | [] => none
  else if b < 240 then
    match rest with
    | b1 :: b2 :: r =>
      if (128 ≤ b1 && b1 < 192) && (128 ≤ b2 && b2 < 192) then
        let c := (b - 224) * 4096 + (b1 - 128) * 64 + (b2 - 128)
        if c < 2048 || (55296 ≤ c && c < 57344) then none
        else some (c, r)
      else none
    | _ => none
  else if b < 245 then
    match rest with
    | b1 :: b2 :: b3 :: r =>
      if ((128 ≤ b1 && b1 < 192) && (128 ≤ b2 && b2 < 192)) && (128 ≤ b3 && b3 < 192) then
        let c := (b - 240) * 262144 + (b1 - 128) * 4096 + (b2 - 128) * 64 + (b3 - 128)
        if c < 65536 || 1114112 ≤ c then none
        else some (c, r)
      else none
    | _ => none
  else none

/-- Strict UTF-8 decoding, as `bytes.decode('utf-8')`.  The fuel makes the
recursion structural; one unit per byte is enough, and `utf8Decode` below
supplies exactly the input length, so the fuel-exhaustion arm is never
taken. -/
def utf8DecodeAux : Nat → List Nat → Option (List Nat)
  | _, [] => some []
  | 0, _ :: _ => none
  | fuel + 1, b :: rest =>
    if b < 128 then (utf8DecodeAux fuel rest).map (b :: ·)
    else
      match utf8DecodeMulti b rest with
      | some (c, r) => (utf8DecodeAux fuel r).map (c :: ·)
      | none => none

/-- Strict UTF-8 decoding of a whole byte list, as `bytes.decode('utf-8')`:
rejects stray continuation bytes, overlong forms, surrogates, values above
0x10FFFF and truncated sequences. -/
def utf8Decode (s : List Nat) : Option (List Nat) :=
  utf8DecodeAux s.length s

/-- The 4 bytes of `struct.pack('<I', n)`: unsigned 32-bit little-endian. -/
def le4 (n : Nat) : List Nat :=
  [n % 256, n / 256 % 256, n / 65536 % 256, n / 16777216 % 256]

/-- The value of `struct.unpack('<I', bs)[0]` on a 4-byte list. -/
def leVal (bs : List Nat) : Nat :=
  match bs with
  | [b0, b1, b2, b3] => b0 + 256 * b1 + 65536 * b2 + 16777216 * b3
  | _ => 0

/-- Outcome of `read_native_message` in `src/native-host/host.py`: `None`
at a clean end of stream, a parsed value, or a raised decoding error
(`UnicodeDecodeError` or `json.JSONDecodeError`). -/
inductive ReadResult where
  | eof : ReadResult
  | value (v : Json) (rest : List Nat) : ReadResult
  | decodeError : ReadResult
deriving DecidableEq

/-- `read_native_message()` of `src/native-host/host.py`, on a byte stream
modelled as the list of bytes stdin will yield before closing.  A buffered
`read(n)` returns up to `n` bytes, short only at end of stream.  The code
returns `None` when fewer than 4 header bytes arrive, then reads the
declared number of payload bytes without checking how many it actually
received, decodes UTF-8 and applies `json.loads`. -/
def read_native_message (s : List Nat) : ReadResult :=
  if s.length < 4 then .eof
  else
    let len := leVal (s.take 4)
    let payload := (s.drop 4).take len
    let rest := (s.drop 4).drop len
    match utf8Decode payload with
    | none => .decodeError
    | some cps =>
      match json_loads cps with
      | none => .decodeError
      | some v => .value v rest

/-- `write_native_message(message)` of `src/native-host/host.py`: the bytes
written to stdout, a 4-byte little-endian length header followed by the
UTF-8 JSON payload.  `struct.pack('<I', ...)` raises on lengths at or above
2^32, modelled as `none`. -/
def write_native_message (v : Json) : Option (List Nat) :=
  let encoded := utf8Encode (json_dumps v)
  if encoded.length < 4294967296 then some (le4 encoded.length ++ encoded) else none

mutual
/-- Parser fuel sufficient for a value (one unit per nesting step). -/
def rankVal : Json → Nat
  | .null => 1
  | .bool _ => 1
  | .int _ => 1
  | .str _ => 1
  | .arr .nil => 1
  | .arr (.cons v tl) => 1 + rankItems (.cons v tl)
  | .obj .nil => 1
  | .obj (.cons k v tl) => 1 + rankMembers (.cons k v tl)
/-- Parser fuel sufficient for a nonempty element sequence. -/
def rankItems : JsonList → Nat
  | .nil => 0
  | .cons v tl => 1 + max (rankVal v) (rankItems tl)
/-- Parser fuel sufficient for a nonempty member sequence. -/
def rankMembers : JsonObj → Nat
  | .nil => 0
  | .cons _ v tl => 1 + max (rankVal v) (rankMembers tl)
end

/-- An HTTP response of either handler: status code and optional body (the
code points of the body string; `none` when no body is written). -/
structure HttpResponse where
  status : Nat
  body : Option (List Nat)
deriving DecidableEq

/-- The shared mutable state of `src/command-server.py`: the globals
`pending_command`, `pending_result` and the flag of `result_event`. -/
structure SrvState where
  pending_command : Option Json
  pending_result : Option Json
  result_event : Bool
deriving DecidableEq

/-- The state at server start: no command, no result, event clear. -/
def initState : SrvState :=
  { pending_command := none, pending_result := none, result_event := false }

/-- Python truthiness of a JSON value, as tested by `if pending_command:`
and `result or ...` in `src/command-server.py`: `None`, `False`, `0`, the
empty string, list and dict are falsy. -/
def pyTruthy : Json → Bool
  | .null => false
  | .bool b => b
  | .int n => decide (n ≠ 0)
  | .str s => !s.isEmpty
  | .arr xs => match xs with | .nil => false | .cons _ _ => true
  | .obj kvs => match kvs with | .nil => false | .cons _ _ _ => true

/-- `CommandHandler.do_GET` on path `/command`: under the lock, if the
pending command is truthy it is returned as JSON with status 200 and the
slot is cleared; otherwise respond 204 with no body.  A falsy pending
value (such as the empty dict) fails the `if pending_command:` test, so it
is neither delivered nor cleared. -/
def getCommand (s : SrvState) : HttpResponse × SrvState :=
  match s.pending_command with
  | some c =>
    if pyTruthy c then
      (⟨200, some (json_dumps c)⟩, { s with pending_command := none })
    else (⟨204, none⟩, s)
  | none => (⟨204, none⟩, s)

/-- The JSON body `{"status": "ok", "name": "command-server"}` of the root
health check. -/
def statusJson : Json :=
  .obj (.cons (strCps "status") (.str (strCps "ok"))
    (.cons (strCps "name") (.str (strCps "command-server")) .nil))

/-- `CommandHandler.do_GET`: dispatch on the path. -/
def do_GET (path : String) (s : SrvState) : HttpResponse × SrvState :=
  if path = "/command" then getCommand s
  else if path = "/" then (⟨200, some (json_dumps statusJson)⟩, s)
  else (⟨404, none⟩, s)

/-- The body-parsing step of `CommandHandler.do_POST`:
`json.loads(body) if body else {}` — an empty body becomes the empty dict,
anything else must parse, and a parse failure is answered with a bare 400. -/
def parseBody (body : List Nat) : Option Json :=
  match body with
  | [] => some (.obj .nil)
  | _ => json_loads body

/-- The submit phase of `CommandHandler.do_POST` on `/command` (under the
lock): store the parsed body in `pending_command` and clear `result_event`. -/
def submitCommand (data : Json) (s : SrvState) : SrvState :=
  { s with pending_command := some data, result_event := false }

/-- `CommandHandler.do_POST` on `/result` (under the lock): store the
parsed body in `pending_result`, set `result_event`, answer 200 with no
body. -/
def postResult (data : Json) (s : SrvState) : HttpResponse × SrvState :=
  (⟨200, none⟩, { s with pending_result := some data, result_event := true })

/-- The JSON body `{"error": "timeout"}`. -/
def timeoutJson : Json :=
  .obj (.cons (strCps "error") (.str (strCps "timeout")) .nil)

/-- A request arriving from the peer while a `/command` poster is blocked
in `result_event.wait(timeout=30)`: a `GET /command` poll or a
`POST /result` delivery. -/
inductive PeerOp where
  | poll : PeerOp
  | deliver (r : Json) : PeerOp

/-- The state effect of one peer request. -/
def applyPeerOp : PeerOp → SrvState → SrvState
  | .poll, s => (do_GET "/command" s).2
  | .deliver r, s => (postResult r s).2

/-- Run the peer requests that land during the wait window, in order; each
carries its arrival time (time units after the wait began).  The first
delivery sets `result_event` and wakes the waiter, so later entries are not
part of this request's window; with no delivery the wait runs to its
deadline.  Returns the state seen by the woken waiter and the wake time. -/
def waitWindow : List (Nat × PeerOp) → SrvState → SrvState × Option Nat
  | [], s => (s, none)
  | (t, op) :: rest, s =>
    let s1 := applyPeerOp op s
    match op with
    | .deliver _ => (s1, some t)
    | .poll => waitWindow rest s1

/-- `CommandHandler.do_POST` on `/command`, after the body parsed to
`data`: store the command and clear the event, block on
`result_event.wait(timeout=30)` while the listed peer requests interleave,
then take and clear `pending_result` under the lock and answer 200 with
`json.dumps(result or {"error": "timeout"})`.  The returned number is the
time spent blocked: the first delivery's arrival time, capped by the
30-unit deadline, or the full 30 units when no delivery arrives. -/
def postCommandData (data : Json) (ops : List (Nat × PeerOp)) (s : SrvState) :
    HttpResponse × SrvState × Nat :=
  let s1 := submitCommand data s
  let ws := waitWindow ops s1
  let elapsed := match ws.2 with | some t => min t 30 | none => 30
  let result := ws.1.pending_result
  let s2 := { ws.1 with pending_result := none }
  let respVal := match result with
    | some r => if pyTruthy r then r else timeoutJson
    | none => timeoutJson
  (⟨200, some (json_dumps respVal)⟩, s2, elapsed)

/-- `CommandHandler.do_POST`: parse the body (a malformed body is answered
with a bare 400 before any state is touched), then dispatch on the path;
unknown paths get 404.  The final number is the time the handler spent
blocked. -/
def do_POST (path : String) (body : List Nat) (ops : List (Nat × PeerOp)) (s : SrvState) :
    HttpResponse × SrvState × Nat :=
  match parseBody body with
  | none => (⟨400, none⟩, s, 0)
  | some data =>
    if path = "/command" then postCommandData data ops s
    else if path = "/result" then
      let pr := postResult data s
      (pr.1, pr.2, 0)
    else (⟨404, none⟩, s, 0)

/-- Class-level state of `NativeHostHandler` in `src/native-host/host.py`.
Note `self.request_id_counter += 1` reads the class attribute but writes an
instance attribute of the per-request handler object, so the class counter
itself never changes; the model keeps it to generate the same ids the code
generates. -/
structure HostState where
  request_id_counter : Nat
deriving DecidableEq

/-- Error body `{"success": false, "error": msg}` sent by the native host
on 400 and 500.  The code interpolates `str(e)` into the message; the
model abstracts the exception text to a fixed string. -/
def hostErrorBody (msg : List Nat) : List Nat :=
  json_dumps (.obj (.cons (strCps "success") (.bool false)
    (.cons (strCps "error") (.str msg) .nil)))

/-- Dict lookup `request.get('id', default)` restricted to present keys. -/
def objLookup (k : List Nat) : JsonObj → Option Json
  | .nil => none
  | .cons k2 v tl => if k2 = k then some v else objLookup k tl

/-- Dict store `request['id'] = v`: overwrite in place or append. -/
def objSetKey (k : List Nat) (v : Json) : JsonObj → JsonObj
  | .nil => .cons k v .nil
  | .cons k2 v2 tl =>
    if k2 = k then .cons k2 v tl else .cons k2 v2 (objSetKey k v tl)

/-- `NativeHostHandler.do_POST` of `src/native-host/host.py`: parse the
body (`json.JSONDecodeError` is answered with 400 and a JSON error
payload), assign a request id, forward the request over the stream via
`write_native_message`, read one reply via `read_native_message` (the
`stream` argument lists the bytes stdin will yield), and answer 200 with
the reply (`null` when the stream ended).  Any other exception — such as
the `AttributeError` of `.get` on a non-dict body, or a decoding error in
the reply — is answered with 500 and a JSON error payload.  Returns the
response, the bytes written to stdout, and the (unchanged) class state. -/
def host_do_POST (body : List Nat) (stream : List Nat) (hs : HostState) :
    HttpResponse × List Nat × HostState :=
  match json_loads body with
  | none => (⟨400, some (hostErrorBody (strCps "Invalid JSON"))⟩, [], hs)
  | some req =>
    match req with
    | .obj kvs =>
      let localCounter := hs.request_id_counter + 1
      let rid := match objLookup (strCps "id") kvs with
        | some v => v
        | none => .str (strCps "http_" ++ natDecimal localCounter)
      let req2 := Json.obj (objSetKey (strCps "id") rid kvs)
      match write_native_message req2 with
      | none => (⟨500, some (hostErrorBody (strCps "error"))⟩, [], hs)
      | some out =>
        match read_native_message stream with
        | .eof => (⟨200, some (strCps "null")⟩, out, hs)
        | .value v _ => (⟨200, some (json_dumps v)⟩, out, hs)
        | .decodeError => (⟨500, some (hostErrorBody (strCps "error"))⟩, out, hs)
    | _ => (⟨500, some (hostErrorBody (strCps "error"))⟩, [], hs)

/-- No entry of a wait window is a `POST /result` delivery. -/
def noDeliver (ops : List (Nat × PeerOp)) : Bool :=
  ops.all (fun p => match p.2 with | .poll => true | .deliver _ => false)

/-- The character after a serialized number may not extend the number
token: no digit, `.`, `e` or `E` at the head of the remaining input. -/
def numStop (r : List Nat) : Bool :=
  match r with
  | [] => true
  | c :: _ => !(isDigitCp c || c == 46 || c == 101 || c == 69)

/-- Length of the head element plus remaining-elements dump of an array
sequence, used for parser fuel accounting. -/
def seqLenItems : JsonList → Nat
  | .nil => 0
  | .cons v tl => (dumpsVal v).length + (dumpsItems tl).length

/-- Length of the head member plus remaining-members dump of an object
sequence, used for parser fuel accounting. -/
def seqLenMembers : JsonObj → Nat
  | .nil => 0
  | .cons k v tl => (keyDump k).length + (dumpsVal v).length + (dumpsMembers tl).length

theorem digitsValue_append (l1 l2 : List Nat) (acc : Nat) :
    digitsValue (l1 ++ l2) acc = digitsValue l2 (digitsValue l1 acc) := by
  induction l1 generalizing acc with
  | nil => rfl
  | cons d r ih => simp [digitsValue, ih]

theorem natDecimalAux_digits (fuel : Nat) :
    ∀ n, ∀ c ∈ natDecimalAux fuel n, 48 ≤ c ∧ c ≤ 57 := by
  induction fuel with
  | zero => intro n c hc; simp [natDecimalAux] at hc
  | succ fuel ih =>
    intro n c hc
    by_cases hn : n = 0
    · simp [natDecimalAux, hn] at hc
    · simp only [natDecimalAux, hn, if_false, List.mem_append, List.mem_singleton] at hc
      rcases hc with hc | hc
      · exact ih (n / 10) c hc
      · subst hc
        have : n % 10 < 10 := Nat.mod_lt n (by omega)
        omega

theorem natDecimal_digits (n : Nat) : ∀ c ∈ natDecimal n, 48 ≤ c ∧ c ≤ 57 := by
  intro c hc
  by_cases hn : n = 0
  · simp [natDecimal, hn] at hc; omega
  · simp only [natDecimal, hn, if_false] at hc
    exact natDecimalAux_digits n n c hc

theorem natDecimalAux_value (fuel : Nat) :
    ∀ n acc, n ≤ fuel →
      digitsValue (natDecimalAux fuel n) acc =
        acc * 10 ^ (natDecimalAux fuel n).length + n := by
  induction fuel with
  | zero =>
    intro n acc h
    have : n = 0 := by omega
    simp [natDecimalAux, digitsValue, this]
  | succ fuel ih =>
    intro n acc h
    by_cases hn : n = 0
    · simp [natDecimalAux, hn, digitsValue]
    · have hdiv : n / 10 ≤ fuel := by
        have := Nat.div_lt_self (by omega : 0 < n) (by omega : 1 < 10)
        omega
      simp only [natDecimalAux, hn, if_false]
      rw [digitsValue_append, ih (n / 10) acc hdiv]
      simp only [digitsValue, List.length_append, List.length_cons, List.length_nil]
      rw [pow_succ, ← mul_assoc]
      generalize acc * 10 ^ (natDecimalAux fuel (n / 10)).length = m
      omega

theorem digitsValue_natDecimal (n : Nat) : digitsValue (natDecimal n) 0 = n := by
  by_cases hn : n = 0
  · simp [natDecimal, hn, digitsValue]
  · simp only [natDecimal, hn, if_false]
    rw [natDecimalAux_value n n 0 (le_refl n)]
    ring

theorem natDecimal_ne_nil (n : Nat) : natDecimal n ≠ [] := by
  by_cases hn : n = 0
  · simp [natDecimal, hn]
  · simp only [natDecimal, hn, if_false]
    obtain ⟨fuel, hf⟩ : ∃ fuel, n = fuel + 1 := ⟨n - 1, by omega⟩
    rw [hf]
    simp [natDecimalAux, hn, hf.symm]

theorem takeWhile_append_all {p : Nat → Bool} (l r : List Nat)
    (h : ∀ c ∈ l, p c = true) :
    (l ++ r).takeWhile p = l ++ r.takeWhile p ∧ (l ++ r).dropWhile p = r.dropWhile p := by
  induction l with
  | nil => simp
  | cons a t ih =>
    have ha : p a = true := h a (by simp)
    have iht := ih (fun c hc => h c (by simp [hc]))
    simp [List.takeWhile_cons, List.dropWhile_cons, ha, iht.1, iht.2]

theorem numStop_digits (r : List Nat) (hr : numStop r = true) :
    r.takeWhile isDigitCp = [] ∧ r.dropWhile isDigitCp = r := by
  cases r with
  | nil => simp
  | cons c t =>
    simp only [numStop, Bool.not_eq_true', Bool.or_eq_false_iff] at hr
    simp [List.takeWhile_cons, List.dropWhile_cons, hr.1.1]

theorem parseDigits_natDecimal (n : Nat) (r : List Nat) (hr : numStop r = true) :
    parseDigits (natDecimal n ++ r) = some (n, r) := by
  have hall : ∀ c ∈ natDecimal n, isDigitCp c = true := by
    intro c hc
    have := natDecimal_digits n c hc
    simp [isDigitCp]; omega
  have htw := takeWhile_append_all (natDecimal n) r hall
  have hstop := numStop_digits r hr
  obtain ⟨d, t, hdt⟩ := List.exists_cons_of_ne_nil (natDecimal_ne_nil n)
  unfold parseDigits
  rw [htw.1, hstop.1, htw.2, hstop.2, List.append_nil]
  rw [hdt]
  simp only []
  rw [← hdt, digitsValue_natDecimal]

theorem hexVal_hexDigit (d : Nat) (h : d < 16) : hexVal (hexDigit d) = some d := by
  interval_cases d <;> decide

theorem wfStr_cons {c : Nat} {s : List Nat} (h : wfStr (c :: s) = true) :
    wfChar c = true ∧ wfStr s = true := by
  simpa [wfStr] using h


theorem parseUEscape_single (n : Nat) (tail : List Nat)
    (hn : n < 65536) (hns : ¬(55296 ≤ n ∧ n < 56320)) :
    parseUEscape (hex4 n ++ tail) = some (n, tail) := by
  have hx1 : hexVal (hexDigit (n / 4096 % 16)) = some (n / 4096 % 16) :=
    hexVal_hexDigit _ (Nat.mod_lt _ (by omega))
  have hx2 : hexVal (hexDigit (n / 256 % 16)) = some (n / 256 % 16) :=
    hexVal_hexDigit _ (Nat.mod_lt _ (by omega))
  have hx3 : hexVal (hexDigit (n / 16 % 16)) = some (n / 16 % 16) :=
    hexVal_hexDigit _ (Nat.mod_lt _ (by omega))
  have hx4 : hexVal (hexDigit (n % 16)) = some (n % 16) :=
    hexVal_hexDigit _ (Nat.mod_lt _ (by omega))
  have hu : n / 4096 % 16 * 4096 + n / 256 % 16 * 256 + n / 16 % 16 * 16 + n % 16 = n := by
    omega
  have hcond : ¬((decide (55296 ≤ n) && decide (n < 56320)) = true) := by
    simpa using hns
  simp only [parseUEscape, hex4, List.cons_append, List.nil_append]
  rw [hx1, hx2, hx3, hx4]
  simp only [hu]
  rw [if_neg hcond]

theorem parseUEscape_pair (a b : Nat) (tail : List Nat)
    (ha1 : 55296 ≤ a) (ha2 : a < 56320) (hb1 : 56320 ≤ b) (hb2 : b < 57344) :
    parseUEscape (hex4 a ++ (92 :: 117 :: (hex4 b ++ tail))) =
      some (65536 + (a - 55296) * 1024 + (b - 56320), tail) := by
  have hax1 : hexVal (hexDigit (a / 4096 % 16)) = some (a / 4096 % 16) :=
    hexVal_hexDigit _ (Nat.mod_lt _ (by omega))
  have hax2 : hexVal (hexDigit (a / 256 % 16)) = some (a / 256 % 16) :=
    hexVal_hexDigit _ (Nat.mod_lt _ (by omega))
  have hax3 : hexVal (hexDigit (a / 16 % 16)) = some (a / 16 % 16) :=
    hexVal_hexDigit _ (Nat.mod_lt _ (by omega))
  have hax4 : hexVal (hexDigit (a % 16)) = some (a % 16) :=
    hexVal_hexDigit _ (Nat.mod_lt _ (by omega))
  have hbx1 : hexVal (hexDigit (b / 4096 % 16)) = some (b / 4096 % 16) :=
    hexVal_hexDigit _ (Nat.mod_lt _ (by omega))
  have hbx2 : hexVal (hexDigit (b / 256 % 16)) = some (b / 256 % 16) :=
    hexVal_hexDigit _ (Nat.mod_lt _ (by omega))
  have hbx3 : hexVal (hexDigit (b / 16 % 16)) = some (b / 16 % 16) :=
    hexVal_hexDigit _ (Nat.mod_lt _ (by omega))
  have hbx4 : hexVal (hexDigit (b % 16)) = some (b % 16) :=
    hexVal_hexDigit _ (Nat.mod_lt _ (by omega))
  have hua : a / 4096 % 16 * 4096 + a / 256 % 16 * 256 + a / 16 % 16 * 16 + a % 16 = a := by
    omega
  have hub : b / 4096 % 16 * 4096 + b / 256 % 16 * 256 + b / 16 % 16 * 16 + b % 16 = b := by
    omega
  have hconda : ((decide (55296 ≤ a) && decide (a < 56320)) = true) := by
    simp only [Bool.and_eq_true, decide_eq_true_eq]
    omega
  have hcondb : ((decide (56320 ≤ b) && decide (b < 57344)) = true) := by
    simp only [Bool.and_eq_true, decide_eq_true_eq]
    omega
  simp only [parseUEscape, hex4, List.cons_append, List.nil_append]
  rw [hax1, hax2, hax3, hax4]
  simp only [hua]
  simp only [hconda, if_true]
  simp only [hbx1, hbx2, hbx3, hbx4, hub]
  simp only [hcondb, if_true]

theorem wfChar_elim {c : Nat} (h : wfChar c = true) :
    c < 1114112 ∧ (c < 55296 ∨ 57344 ≤ c) := by
  simpa only [wfChar, Bool.and_eq_true, Bool.or_eq_true, decide_eq_true_eq] using h

theorem escChar_ctrl {c : Nat} (h1 : c < 32) (h8 : c ≠ 8) (h9 : c ≠ 9)
    (h10 : c ≠ 10) (h12 : c ≠ 12) (h13 : c ≠ 13) :
    escChar c = 92 :: 117 :: hex4 c := by
  unfold escChar
  rw [if_neg (by omega : ¬c = 34), if_neg (by omega : ¬c = 92),
    if_neg (by omega : ¬c = 8), if_neg (by omega : ¬c = 9),
    if_neg (by omega : ¬c = 10), if_neg (by omega : ¬c = 12),
    if_neg (by omega : ¬c = 13), if_pos h1]

theorem escChar_print {c : Nat} (h1 : 32 ≤ c) (h2 : c < 127) (h34 : c ≠ 34)
    (h92 : c ≠ 92) : escChar c = [c] := by
  unfold escChar
  rw [if_neg h34, if_neg h92,
    if_neg (by omega : ¬c = 8), if_neg (by omega : ¬c = 9),
    if_neg (by omega : ¬c = 10), if_neg (by omega : ¬c = 12),
    if_neg (by omega : ¬c = 13), if_neg (by omega : ¬c < 32), if_pos h2]

theorem escChar_bmp {c : Nat} (h1 : 127 ≤ c) (h2 : c < 65536) :
    escChar c = 92 :: 117 :: hex4 c := by
  unfold escChar
  rw [if_neg (by omega : ¬c = 34), if_neg (by omega : ¬c = 92),
    if_neg (by omega : ¬c = 8), if_neg (by omega : ¬c = 9),
    if_neg (by omega : ¬c = 10), if_neg (by omega : ¬c = 12),
    if_neg (by omega : ¬c = 13), if_neg (by omega : ¬c < 32),
    if_neg (by omega : ¬c < 127), if_pos h2]

theorem escChar_big {c : Nat} (h1 : 65536 ≤ c) :
    escChar c = 92 :: 117 :: hex4 (55296 + (c - 65536) / 1024) ++
      (92 :: 117 :: hex4 (56320 + (c - 65536) % 1024)) := by
  unfold escChar
  rw [if_neg (by omega : ¬c = 34), if_neg (by omega : ¬c = 92),
    if_neg (by omega : ¬c = 8), if_neg (by omega : ¬c = 9),
    if_neg (by omega : ¬c = 10), if_neg (by omega : ¬c = 12),
    if_neg (by omega : ¬c = 13), if_neg (by omega : ¬c < 32),
    if_neg (by omega : ¬c < 127), if_neg (by omega : ¬c < 65536)]

theorem escChar_length_pos (c : Nat) : 1 ≤ (escChar c).length := by
  by_cases h34 : c = 34
  · subst h34; simp [escChar]
  · by_cases h92 : c = 92
    · subst h92; simp [escChar]
    · by_cases h8 : c = 8
      · subst h8; simp [escChar]
      · by_cases h9 : c = 9
        · subst h9; simp [escChar]
        · by_cases h10 : c = 10
          · subst h10; simp [escChar]
          · by_cases h12 : c = 12
            · subst h12; simp [escChar]
            · by_cases h13 : c = 13
              · subst h13; simp [escChar]
              · by_cases hctl : c < 32
                · rw [escChar_ctrl hctl h8 h9 h10 h12 h13]; simp
                · by_cases hprint : c < 127
                  · rw [escChar_print (by omega) hprint h34 h92]; simp
                  · by_cases hbmp : c < 65536
                    · rw [escChar_bmp (by omega) hbmp]; simp
                    · rw [escChar_big (by omega)]; simp

theorem parseStringBody_big_step (f a b cc : Nat) (t2 rest s2 : List Nat)
    (ha1 : 55296 ≤ a) (ha2 : a < 56320) (hb1 : 56320 ≤ b) (hb2 : b < 57344)
    (hcomb : 65536 + (a - 55296) * 1024 + (b - 56320) = cc)
    (ihx : parseStringBody f t2 = some (s2, rest)) :
    parseStringBody (f + 1) (92 :: 117 :: (hex4 a ++ (92 :: 117 :: (hex4 b ++ t2)))) =
      some (cc :: s2, rest) := by
  have hpe := parseUEscape_pair a b t2 ha1 ha2 hb1 hb2
  simp only [parseStringBody, parseEscape]
  rw [hpe, hcomb]
  simp [ihx]

theorem parseStringBody_escString (s : List Nat) :
    wfStr s = true → ∀ fuel rest, (escString s).length < fuel →
      parseStringBody fuel (escString s ++ (34 :: rest)) = some (s, rest) := by
  induction s with
  | nil =>
    intro _ fuel rest hf
    cases fuel with
    | zero => simp [escString] at hf
    | succ f => simp [escString, parseStringBody]
  | cons c s2 ih =>
    intro hwf fuel rest hf
    obtain ⟨hc, hs2⟩ := wfStr_cons hwf
    obtain ⟨hcmax, hcsur⟩ := wfChar_elim hc
    have hlen1 : 1 ≤ (escChar c).length := escChar_length_pos c
    cases fuel with
    | zero =>
      simp only [escString, List.length_append] at hf
      omega
    | succ f =>
      have hfs2 : (escString s2).length < f := by
        simp only [escString, List.length_append] at hf
        omega
      have ihx := ih hs2 f rest hfs2
      simp only [escString, List.append_assoc]
      by_cases h34 : c = 34
      · subst h34
        rw [show escChar 34 = [92, 34] from rfl]
        simp only [List.cons_append, List.nil_append]
        simp [parseStringBody, parseEscape, ihx]
      · by_cases h92 : c = 92
        · subst h92
          rw [show escChar 92 = [92, 92] from rfl]
          simp only [List.cons_append, List.nil_append]
          simp [parseStringBody, parseEscape, ihx]
        · by_cases h8 : c = 8
          · subst h8
            rw [show escChar 8 = [92, 98] from rfl]
            simp only [List.cons_append, List.nil_append]
            simp [parseStringBody, parseEscape, ihx]
          · by_cases h9 : c = 9
            · subst h9
              rw [show escChar 9 = [92, 116] from rfl]
              simp only [List.cons_append, List.nil_append]
              simp [parseStringBody, parseEscape, ihx]
            · by_cases h10 : c = 10
              · subst h10
                rw [show escChar 10 = [92, 110] from rfl]
                simp only [List.cons_append, List.nil_append]
                simp [parseStringBody, parseEscape, ihx]
              · by_cases h12 : c = 12
                · subst h12
                  rw [show escChar 12 = [92, 102] from rfl]
                  simp only [List.cons_append, List.nil_append]
                  simp [parseStringBody, parseEscape, ihx]
                · by_cases h13 : c = 13
                  · subst h13
                    rw [show escChar 13 = [92, 114] from rfl]
                    simp only [List.cons_append, List.nil_append]
                    simp [parseStringBody, parseEscape, ihx]
                  · by_cases hctl : c < 32
                    · rw [escChar_ctrl hctl h8 h9 h10 h12 h13]
                      have hpe := parseUEscape_single c (escString s2 ++ 34 :: rest)
                        (by omega) (by omega)
                      simp only [List.cons_append]
                      simp only [parseStringBody, parseEscape]
                      rw [hpe]
                      simp [ihx]
                    · by_cases hprint : c < 127
                      · rw [escChar_print (by omega) hprint h34 h92]
                        simp only [List.cons_append, List.nil_append]
                        simp [parseStringBody, h34, h92, hctl, ihx]
                      · by_cases hbmp : c < 65536
                        · rw [escChar_bmp (by omega) hbmp]
                          have hpe := parseUEscape_single c (escString s2 ++ 34 :: rest)
                            (by omega) (by omega)
                          simp only [List.cons_append]
                          simp only [parseStringBody, parseEscape]
                          rw [hpe]
                          simp [ihx]
                        · rw [escChar_big (by omega)]
                          simp only [List.cons_append, List.append_assoc]
                          exact parseStringBody_big_step f (55296 + (c - 65536) / 1024)
                            (56320 + (c - 65536) % 1024) c (escString s2 ++ 34 :: rest) rest s2
                            (by omega) (by omega) (by omega) (by omega) (by omega) ihx

theorem hexDigit_ascii (d : Nat) (h : d < 16) : hexDigit d < 128 := by
  unfold hexDigit
  split_ifs <;> omega

theorem escChar_ascii (c : Nat) : ∀ x ∈ escChar c, x < 128 := by
  have hx : ∀ n, ∀ x ∈ hex4 n, x < 128 := by
    intro n x hx
    simp only [hex4, List.mem_cons, List.not_mem_nil, or_false] at hx
    rcases hx with h | h | h | h <;> subst h <;>
      exact hexDigit_ascii _ (Nat.mod_lt _ (by omega))
  by_cases h34 : c = 34
  · subst h34; decide
  · by_cases h92 : c = 92
    · subst h92; decide
    · by_cases h8 : c = 8
      · subst h8; decide
      · by_cases h9 : c = 9
        · subst h9; decide
        · by_cases h10 : c = 10
          · subst h10; decide
          · by_cases h12 : c = 12
            · subst h12; decide
            · by_cases h13 : c = 13
              · subst h13; decide
              · by_cases hctl : c < 32
                · rw [escChar_ctrl hctl h8 h9 h10 h12 h13]
                  intro x hmem
                  simp only [List.mem_cons] at hmem
                  rcases hmem with h | h | h
                  · omega
                  · omega
                  · exact hx c x h
                · by_cases hprint : c < 127
                  · rw [escChar_print (by omega) hprint h34 h92]
                    intro x hmem
                    simp only [List.mem_cons, List.not_mem_nil, or_false] at hmem
                    omega
                  · by_cases hbmp : c < 65536
                    · rw [escChar_bmp (by omega) hbmp]
                      intro x hmem
                      simp only [List.mem_cons] at hmem
                      rcases hmem with h | h | h
                      · omega
                      · omega
                      · exact hx c x h
                    · rw [escChar_big (by omega)]
                      intro x hmem
                      simp only [List.mem_cons, List.mem_append] at hmem
                      rcases hmem with (h | h | h) | (h | h | h)
                      · omega
                      · omega
                      · exact hx _ x h
                      · omega
                      · omega
                      · exact hx _ x h

theorem escString_ascii (s : List Nat) : ∀ x ∈ escString s, x < 128 := by
  induction s with
  | nil => intro x hx; simp [escString] at hx
  | cons c t ih =>
    intro x hx
    simp only [escString, List.mem_append] at hx
    rcases hx with h | h
    · exact escChar_ascii c x h
    · exact ih x h

theorem natDecimal_ascii (n : Nat) : ∀ x ∈ natDecimal n, x < 128 := by
  intro x hx
  have := natDecimal_digits n x hx
  omega

theorem intDecimal_ascii (n : Int) : ∀ x ∈ intDecimal n, x < 128 := by
  intro x hx
  unfold intDecimal at hx
  split_ifs at hx
  · simp only [List.mem_cons] at hx
    rcases hx with h | h
    · omega
    · exact natDecimal_ascii _ x h
  · exact natDecimal_ascii _ x hx

theorem keyDump_ascii (k : List Nat) : ∀ x ∈ keyDump k, x < 128 := by
  intro x hx
  simp only [keyDump, List.mem_cons, List.mem_append, List.not_mem_nil, or_false] at hx
  rcases hx with h | h
  · rcases h with h | h
    · omega
    · exact escString_ascii k x h
  · rcases h with h | h | h <;> omega

theorem mem_cons_elim {x a : Nat} {l : List Nat} (h : x ∈ a :: l) : x = a ∨ x ∈ l := by
  simpa using h

theorem mem_append_elim {x : Nat} {l1 l2 : List Nat} (h : x ∈ l1 ++ l2) :
    x ∈ l1 ∨ x ∈ l2 := by
  simpa using h

mutual
theorem dumpsVal_ascii : ∀ (v : Json) (x : Nat), x ∈ dumpsVal v → x < 128
  | .null, x, hx => by
    rcases mem_cons_elim hx with h | h
    · omega
    rcases mem_cons_elim h with h | h
    · omega
    rcases mem_cons_elim h with h | h
    · omega
    rcases mem_cons_elim h with h | h
    · omega
    simp at h
  | .bool true, x, hx => by
    rcases mem_cons_elim hx with h | h
    · omega
    rcases mem_cons_elim h with h | h
    · omega
    rcases mem_cons_elim h with h | h
    · omega
    rcases mem_cons_elim h with h | h
    · omega
    simp at h
  | .bool false, x, hx => by
    rcases mem_cons_elim hx with h | h
    · omega
    rcases mem_cons_elim h with h | h
    · omega
    rcases mem_cons_elim h with h | h
    · omega
    rcases mem_cons_elim h with h | h
    · omega
    rcases mem_cons_elim h with h | h
    · omega
    simp at h
  | .int n, x, hx => intDecimal_ascii n x hx
  | .str s, x, hx => by
    rcases mem_append_elim hx with h | h
    · rcases mem_cons_elim h with h | h
      · omega
      · exact escString_ascii s x h
    · simp at h; omega
  | .arr .nil, x, hx => by
    rcases mem_cons_elim hx with h | h
    · omega
    rcases mem_cons_elim h with h | h
    · omega
    simp at h
  | .arr (.cons v tl), x, hx => by
    rcases mem_cons_elim hx with h | h
    · omega
    rcases mem_append_elim h with h | h
    · rcases mem_append_elim h with h | h
      · exact dumpsVal_ascii v x h
      · exact dumpsItems_ascii tl x h
    · simp at h; omega
  | .obj .nil, x, hx => by
    rcases mem_cons_elim hx with h | h
    · omega
    rcases mem_cons_elim h with h | h
    · omega
    simp at h
  | .obj (.cons k v tl), x, hx => by
    rcases mem_cons_elim hx with h | h
    · omega
    rcases mem_append_elim h with h | h
    · rcases mem_append_elim h with h | h
      · rcases mem_append_elim h with h | h
        · exact keyDump_ascii k x h
        · exact dumpsVal_ascii v x h
      · exact dumpsMembers_ascii tl x h
    · simp at h; omega
theorem dumpsItems_ascii : ∀ (xs : JsonList) (x : Nat), x ∈ dumpsItems xs → x < 128
  | .nil, x, hx => by simp [dumpsItems] at hx
  | .cons v tl, x, hx => by
    rcases mem_cons_elim hx with h | h
    · omega
    rcases mem_cons_elim h with h | h
    · omega
    rcases mem_append_elim h with h | h
    · exact dumpsVal_ascii v x h
    · exact dumpsItems_ascii tl x h
theorem dumpsMembers_ascii : ∀ (kvs : JsonObj) (x : Nat), x ∈ dumpsMembers kvs → x < 128
  | .nil, x, hx => by simp [dumpsMembers] at hx
  | .cons k v tl, x, hx => by
    rcases mem_cons_elim hx with h | h
    · omega
    rcases mem_cons_elim h with h | h
    · omega
    rcases mem_append_elim h with h | h
    · rcases mem_append_elim h with h | h
      · exact keyDump_ascii k x h
      · exact dumpsVal_ascii v x h
    · exact dumpsMembers_ascii tl x h
end

theorem dumpsVal_length_pos (v : Json) : 1 ≤ (dumpsVal v).length := by
  cases v with
  | null => simp [dumpsVal]
  | bool b => cases b <;> simp [dumpsVal]
  | int n =>
    simp only [dumpsVal, intDecimal]
    split_ifs
    · simp
    · have hne := natDecimal_ne_nil n.natAbs
      exact Nat.succ_le_of_lt (List.length_pos.2 hne)
  | str s => simp [dumpsVal]
  | arr xs => cases xs <;> simp [dumpsVal]
  | obj kvs => cases kvs <;> simp [dumpsVal]

theorem dumpsVal_head (v : Json) :
    ∃ d t, dumpsVal v = d :: t ∧ isWsCp d = false ∧ d ≠ 93 ∧ d ≠ 125 := by
  cases v with
  | null => exact ⟨110, _, rfl, by decide, by decide, by decide⟩
  | bool b =>
    cases b
    · exact ⟨102, _, rfl, by decide, by decide, by decide⟩
    · exact ⟨116, _, rfl, by decide, by decide, by decide⟩
  | int n =>
    by_cases hn : n < 0
    · refine ⟨45, natDecimal n.natAbs, ?_, by decide, by decide, by decide⟩
      simp [dumpsVal, intDecimal, hn]
    · obtain ⟨d, t, hdt⟩ := List.exists_cons_of_ne_nil (natDecimal_ne_nil n.natAbs)
      have hd := natDecimal_digits n.natAbs d (by rw [hdt]; simp)
      refine ⟨d, t, ?_, ?_, ?_, ?_⟩
      · simp [dumpsVal, intDecimal, hn, hdt]
      · simp only [isWsCp, Bool.or_eq_false_iff, beq_eq_false_iff_ne]
        omega
      · omega
      · omega
  | str s => exact ⟨34, _, rfl, by decide, by decide, by decide⟩
  | arr xs =>
    cases xs
    · exact ⟨91, _, rfl, by decide, by decide, by decide⟩
    · exact ⟨91, _, rfl, by decide, by decide, by decide⟩
  | obj kvs =>
    cases kvs
    · exact ⟨123, _, rfl, by decide, by decide, by decide⟩
    · exact ⟨123, _, rfl, by decide, by decide, by decide⟩

theorem skipWs_dumpsVal (v : Json) (x : List Nat) :
    skipWs (dumpsVal v ++ x) = dumpsVal v ++ x := by
  obtain ⟨d, t, hdt, hws, _, _⟩ := dumpsVal_head v
  rw [hdt]
  simp [skipWs, List.cons_append, List.dropWhile_cons, hws]

theorem headD_dumpsVal_ne (v : Json) (x : List Nat) :
    (dumpsVal v ++ x).headD 0 ≠ 93 ∧ (dumpsVal v ++ x).headD 0 ≠ 125 := by
  obtain ⟨d, t, hdt, _, h93, h125⟩ := dumpsVal_head v
  rw [hdt]
  simp only [List.cons_append, List.headD_cons]
  exact ⟨h93, h125⟩

theorem numStop_dumpsItems (tl : JsonList) (rest : List Nat) :
    numStop (dumpsItems tl ++ (93 :: rest)) = true := by
  cases tl <;> simp [dumpsItems, numStop, isDigitCp, List.cons_append]

theorem numStop_dumpsMembers (tl : JsonObj) (rest : List Nat) :
    numStop (dumpsMembers tl ++ (125 :: rest)) = true := by
  cases tl <;> simp [dumpsMembers, numStop, isDigitCp, List.cons_append]

mutual
theorem rankVal_le : ∀ v : Json, rankVal v ≤ (dumpsVal v).length + 1
  | .null => by simp [rankVal, dumpsVal]
  | .bool b => by cases b <;> simp [rankVal, dumpsVal]
  | .int n => by
    have := dumpsVal_length_pos (.int n)
    simp only [rankVal]
    omega
  | .str s => by
    simp only [rankVal]
    omega
  | .arr .nil => by simp [rankVal, dumpsVal]
  | .arr (.cons v tl) => by
    have h2 := rankItems_le (.cons v tl)
    simp only [rankVal, seqLenItems] at *
    simp only [dumpsVal, List.length_cons, List.length_append]
    omega
  | .obj .nil => by simp [rankVal, dumpsVal]
  | .obj (.cons k v tl) => by
    have h2 := rankMembers_le (.cons k v tl)
    simp only [rankVal, seqLenMembers] at *
    simp only [dumpsVal, List.length_cons, List.length_append]
    omega
theorem rankItems_le : ∀ xs : JsonList, rankItems xs ≤ seqLenItems xs + 2
  | .nil => by simp [rankItems, seqLenItems]
  | .cons v tl => by
    have h1 := rankVal_le v
    have hp := dumpsVal_length_pos v
    rcases max_choice (rankVal v) (rankItems tl) with hmx | hmx
    · cases tl with
      | nil =>
        simp only [rankItems, seqLenItems, dumpsItems, List.length_nil, hmx]
        omega
      | cons v2 tl2 =>
        have hp2 := dumpsVal_length_pos v2
        simp only [rankItems, seqLenItems, hmx] at *
        simp only [dumpsItems, List.length_cons, List.length_append]
        omega
    · cases tl with
      | nil =>
        simp only [rankItems, seqLenItems, dumpsItems, List.length_nil, hmx]
        omega
      | cons v2 tl2 =>
        have h2 := rankItems_le (.cons v2 tl2)
        have hp2 := dumpsVal_length_pos v2
        simp only [rankItems, seqLenItems, hmx] at *
        simp only [dumpsItems, List.length_cons, List.length_append]
        omega
theorem rankMembers_le : ∀ kvs : JsonObj, rankMembers kvs ≤ seqLenMembers kvs + 2
  | .nil => by simp [rankMembers, seqLenMembers]
  | .cons k v tl => by
    have h1 := rankVal_le v
    have hp := dumpsVal_length_pos v
    rcases max_choice (rankVal v) (rankMembers tl) with hmx | hmx
    · cases tl with
      | nil =>
        simp only [rankMembers, seqLenMembers, dumpsMembers, List.length_nil, hmx]
        omega
      | cons k2 v2 tl2 =>
        have hp2 := dumpsVal_length_pos v2
        simp only [rankMembers, seqLenMembers, hmx] at *
        simp only [dumpsMembers, List.length_cons, List.length_append]
        omega
    · cases tl with
      | nil =>
        simp only [rankMembers, seqLenMembers, dumpsMembers, List.length_nil, hmx]
        omega
      | cons k2 v2 tl2 =>
        have h2 := rankMembers_le (.cons k2 v2 tl2)
        have hp2 := dumpsVal_length_pos v2
        simp only [rankMembers, seqLenMembers, hmx] at *
        simp only [dumpsMembers, List.length_cons, List.length_append]
        omega
end

theorem parseVal_quote_step (f : Nat) (r : List Nat) :
    parseVal (f + 1) (34 :: r) =
      (parseStringBody (r.length + 1) r).map (fun p => (Json.str p.1, p.2)) := by
  simp [parseVal]

theorem parseVal_arr_step (f : Nat) (r : List Nat) :
    parseVal (f + 1) (91 :: r) =
      (if (skipWs r).headD 0 = 93 then some (Json.arr .nil, (skipWs r).tail)
       else (parseItems f (skipWs r)).map (fun p => (Json.arr p.1, p.2))) := by
  simp [parseVal]

theorem parseVal_obj_step (f : Nat) (r : List Nat) :
    parseVal (f + 1) (123 :: r) =
      (if (skipWs r).headD 0 = 125 then some (Json.obj .nil, (skipWs r).tail)
       else (parseMembers f (skipWs r)).map (fun p => (Json.obj p.1, p.2))) := by
  simp [parseVal]

theorem parseVal_true_step (f : Nat) (r : List Nat) :
    parseVal (f + 1) (116 :: 114 :: 117 :: 101 :: r) = some (Json.bool true, r) := by
  simp [parseVal]

theorem parseVal_false_step (f : Nat) (r : List Nat) :
    parseVal (f + 1) (102 :: 97 :: 108 :: 115 :: 101 :: r) = some (Json.bool false, r) := by
  simp [parseVal]

theorem parseVal_null_step (f : Nat) (r : List Nat) :
    parseVal (f + 1) (110 :: 117 :: 108 :: 108 :: r) = some (Json.null, r) := by
  simp [parseVal]

theorem parseVal_neg_step (f : Nat) (r : List Nat) :
    parseVal (f + 1) (45 :: r) =
      (parseDigits r).map (fun p => (Json.int (-(p.1 : Int)), p.2)) := by
  simp [parseVal]

theorem parseVal_digit_step (f c : Nat) (r : List Nat) (h1 : 48 ≤ c) (h2 : c ≤ 57) :
    parseVal (f + 1) (c :: r) =
      (parseDigits (c :: r)).map (fun p => (Json.int (p.1 : Int), p.2)) := by
  have hdig : isDigitCp c = true := by
    simp only [isDigitCp, Bool.and_eq_true, decide_eq_true_eq]
    omega
  simp only [parseVal]
  rw [if_neg (by omega : ¬c = 34), if_neg (by omega : ¬c = 91),
    if_neg (by omega : ¬c = 123), if_neg (by omega : ¬c = 116),
    if_neg (by omega : ¬c = 102), if_neg (by omega : ¬c = 110),
    if_neg (by omega : ¬c = 45), if_pos hdig]

theorem skipWs_cons_space (x : List Nat) : skipWs (32 :: x) = skipWs x := by
  simp [skipWs, List.dropWhile_cons, isWsCp]

theorem skipWs_keyDump (k : List Nat) (x : List Nat) :
    skipWs (keyDump k ++ x) = keyDump k ++ x := by
  simp [keyDump, skipWs, List.cons_append, List.dropWhile_cons, isWsCp]

mutual
theorem parseVal_dumpsVal : ∀ (v : Json), wfVal v = true → ∀ (fuel : Nat), rankVal v ≤ fuel →
    ∀ (rest : List Nat), numStop rest = true →
    parseVal fuel (dumpsVal v ++ rest) = some (v, rest)
  | .null, _, fuel, hfu, rest, _ => by
    cases fuel with
    | zero => simp only [rankVal] at hfu; omega
    | succ f =>
      simp only [dumpsVal, List.cons_append, List.nil_append]
      exact parseVal_null_step f rest
  | .bool true, _, fuel, hfu, rest, _ => by
    cases fuel with
    | zero => simp only [rankVal] at hfu; omega
    | succ f =>
      simp only [dumpsVal, List.cons_append, List.nil_append]
      exact parseVal_true_step f rest
  | .bool false, _, fuel, hfu, rest, _ => by
    cases fuel with
    | zero => simp only [rankVal] at hfu; omega
    | succ f =>
      simp only [dumpsVal, List.cons_append, List.nil_append]
      exact parseVal_false_step f rest
  | .int n, _, fuel, hfu, rest, hrest => by
    cases fuel with
    | zero => simp only [rankVal] at hfu; omega
    | succ f =>
      have hpd := parseDigits_natDecimal n.natAbs rest hrest
      by_cases hn : n < 0
      · have hid : intDecimal n = 45 :: natDecimal n.natAbs := by
          simp [intDecimal, hn]
        have hneg : -(|n|) = n := by
          rw [abs_of_neg hn, neg_neg]
        simp only [dumpsVal, hid, List.cons_append]
        rw [parseVal_neg_step, hpd]
        simp [hneg]
      · have hid : intDecimal n = natDecimal n.natAbs := by
          simp [intDecimal, hn]
        have hpos : |n| = n := abs_of_nonneg (by omega)
        obtain ⟨d, t, hdt⟩ := List.exists_cons_of_ne_nil (natDecimal_ne_nil n.natAbs)
        have hd := natDecimal_digits n.natAbs d (by rw [hdt]; simp)
        have hshape : natDecimal n.natAbs ++ rest = d :: (t ++ rest) := by
          rw [hdt]; simp
        simp only [dumpsVal, hid, hshape]
        rw [parseVal_digit_step f d (t ++ rest) (by omega) (by omega)]
        rw [← hshape, hpd]
        simp [hpos]
  | .str s, hwf, fuel, hfu, rest, _ => by
    cases fuel with
    | zero => simp only [rankVal] at hfu; omega
    | succ f =>
      have hs : wfStr s = true := by simpa [wfVal] using hwf
      have hshape : dumpsVal (.str s) ++ rest = 34 :: (escString s ++ (34 :: rest)) := by
        simp [dumpsVal, List.cons_append, List.append_assoc]
      rw [hshape, parseVal_quote_step]
      rw [parseStringBody_escString s hs _ rest (by simp [List.length_append]; omega)]
      simp
  | .arr .nil, _, fuel, hfu, rest, _ => by
    cases fuel with
    | zero => simp only [rankVal] at hfu; omega
    | succ f =>
      have hshape : dumpsVal (.arr .nil) ++ rest = 91 :: (93 :: rest) := by
        simp [dumpsVal]
      rw [hshape, parseVal_arr_step]
      have hsw : skipWs (93 :: rest) = 93 :: rest := by
        simp [skipWs, List.dropWhile_cons, isWsCp]
      rw [hsw]
      simp
  | .arr (.cons v tl), hwf, fuel, hfu, rest, hrest => by
    cases fuel with
    | zero => simp only [rankVal] at hfu; omega
    | succ f =>
      have hwf2 : wfVal v = true ∧ wfItems tl = true := by
        simpa [wfVal, wfItems] using hwf
      have hfu2 : rankItems (.cons v tl) ≤ f := by
        simp only [rankVal] at hfu; omega
      have hshape : dumpsVal (.arr (.cons v tl)) ++ rest =
          91 :: (dumpsVal v ++ (dumpsItems tl ++ (93 :: rest))) := by
        simp [dumpsVal, List.cons_append, List.append_assoc]
      rw [hshape, parseVal_arr_step, skipWs_dumpsVal]
      rw [if_neg (headD_dumpsVal_ne v _).1]
      rw [parseItems_dumpsItems v tl hwf2.1 hwf2.2 f hfu2 rest]
      simp
  | .obj .nil, _, fuel, hfu, rest, _ => by
    cases fuel with
    | zero => simp only [rankVal] at hfu; omega
    | succ f =>
      have hshape : dumpsVal (.obj .nil) ++ rest = 123 :: (125 :: rest) := by
        simp [dumpsVal]
      rw [hshape, parseVal_obj_step]
      have hsw : skipWs (125 :: rest) = 125 :: rest := by
        simp [skipWs, List.dropWhile_cons, isWsCp]
      rw [hsw]
      simp
  | .obj (.cons k v tl), hwf, fuel, hfu, rest, hrest => by
    cases fuel with
    | zero => simp only [rankVal] at hfu; omega
    | succ f =>
      have hwf2 : (wfStr k = true ∧ wfVal v = true) ∧ wfMembers tl = true := by
        simpa [wfVal, wfMembers] using hwf
      have hfu2 : rankMembers (.cons k v tl) ≤ f := by
        simp only [rankVal] at hfu; omega
      have hshape : dumpsVal (.obj (.cons k v tl)) ++ rest =
          123 :: (keyDump k ++ (dumpsVal v ++ (dumpsMembers tl ++ (125 :: rest)))) := by
        simp [dumpsVal, List.cons_append, List.append_assoc]
      rw [hshape, parseVal_obj_step, skipWs_keyDump]
      have hne : (keyDump k ++ (dumpsVal v ++ (dumpsMembers tl ++ (125 :: rest)))).headD 0 ≠
          125 := by
        simp [keyDump, List.cons_append, List.headD_cons]
      rw [if_neg hne]
      rw [parseMembers_dumpsMembers k v tl hwf2.1.1 hwf2.1.2 hwf2.2 f hfu2 rest]
      simp
termination_by v _ _ _ _ _ => 2 * sizeOf v
decreasing_by all_goals (simp_wf; omega)
theorem parseItems_dumpsItems : ∀ (v : Json) (tl : JsonList),
    wfVal v = true → wfItems tl = true → ∀ (fuel : Nat), rankItems (.cons v tl) ≤ fuel →
    ∀ (rest : List Nat),
    parseItems fuel (dumpsVal v ++ (dumpsItems tl ++ (93 :: rest))) = some (.cons v tl, rest)
  | v, .nil, hwfv, _, fuel, hfu, rest => by
    cases fuel with
    | zero => simp only [rankItems] at hfu; omega
    | succ f =>
      have hfuv : rankVal v ≤ f := by
        have := le_max_left (rankVal v) (rankItems JsonList.nil)
        simp only [rankItems] at hfu
        omega
      simp only [parseItems]
      rw [parseVal_dumpsVal v hwfv f hfuv (dumpsItems JsonList.nil ++ (93 :: rest))
        (numStop_dumpsItems JsonList.nil rest)]
      have hsw : skipWs (dumpsItems JsonList.nil ++ (93 :: rest)) = 93 :: rest := by
        simp [dumpsItems, skipWs, List.dropWhile_cons, isWsCp]
      simp [hsw]
  | v, .cons v2 tl2, hwfv, hwft, fuel, hfu, rest => by
    cases fuel with
    | zero => simp only [rankItems] at hfu; omega
    | succ f =>
      have hfuv : rankVal v ≤ f := by
        have := le_max_left (rankVal v) (rankItems (JsonList.cons v2 tl2))
        simp only [rankItems] at hfu
        omega
      simp only [parseItems]
      rw [parseVal_dumpsVal v hwfv f hfuv (dumpsItems (JsonList.cons v2 tl2) ++ (93 :: rest))
        (numStop_dumpsItems (JsonList.cons v2 tl2) rest)]
      have hwfv2 : wfVal v2 = true ∧ wfItems tl2 = true := by
        simpa [wfItems] using hwft
      have hfu2 : rankItems (.cons v2 tl2) ≤ f := by
        simp only [rankItems] at hfu ⊢
        have hm2 := le_max_right (rankVal v) (1 + max (rankVal v2) (rankItems tl2))
        omega
      have hshape : dumpsItems (JsonList.cons v2 tl2) ++ (93 :: rest) =
          44 :: (32 :: (dumpsVal v2 ++ (dumpsItems tl2 ++ (93 :: rest)))) := by
        simp [dumpsItems, List.cons_append, List.append_assoc]
      rw [hshape]
      have hsw : skipWs (44 :: (32 :: (dumpsVal v2 ++ (dumpsItems tl2 ++ (93 :: rest))))) =
          44 :: (32 :: (dumpsVal v2 ++ (dumpsItems tl2 ++ (93 :: rest)))) := by
        simp [skipWs, List.dropWhile_cons, isWsCp]
      dsimp only
      rw [hsw]
      simp only [List.headD_cons, List.tail_cons]
      rw [if_pos trivial, skipWs_cons_space, skipWs_dumpsVal]
      rw [parseItems_dumpsItems v2 tl2 hwfv2.1 hwfv2.2 f hfu2 rest]
      simp
termination_by v tl _ _ _ _ _ => 2 * (sizeOf v + sizeOf tl) + 1
decreasing_by all_goals (simp_wf; omega)
theorem parseMembers_dumpsMembers : ∀ (k : List Nat) (v : Json) (tl : JsonObj),
    wfStr k = true → wfVal v = true → wfMembers tl = true →
    ∀ (fuel : Nat), rankMembers (.cons k v tl) ≤ fuel → ∀ (rest : List Nat),
    parseMembers fuel (keyDump k ++ (dumpsVal v ++ (dumpsMembers tl ++ (125 :: rest)))) =
      some (.cons k v tl, rest)
  | k, v, .nil, hwfk, hwfv, _, fuel, hfu, rest => by
    cases fuel with
    | zero => simp only [rankMembers] at hfu; omega
    | succ f =>
      have hfuv : rankVal v ≤ f := by
        have := le_max_left (rankVal v) (rankMembers JsonObj.nil)
        simp only [rankMembers] at hfu
        omega
      have hshape : keyDump k ++ (dumpsVal v ++ (dumpsMembers JsonObj.nil ++ (125 :: rest))) =
          34 :: (escString k ++ (34 :: (58 :: (32 ::
            (dumpsVal v ++ (dumpsMembers JsonObj.nil ++ (125 :: rest))))))) := by
        simp [keyDump, List.cons_append, List.append_assoc]
      rw [hshape]
      simp only [parseMembers]
      rw [parseStringBody_escString k hwfk _ _ (by simp [List.length_append]; omega)]
      have hsw : skipWs (58 :: (32 :: (dumpsVal v ++ (dumpsMembers JsonObj.nil ++ (125 :: rest))))) =
          58 :: (32 :: (dumpsVal v ++ (dumpsMembers JsonObj.nil ++ (125 :: rest)))) := by
        simp [skipWs, List.dropWhile_cons, isWsCp]
      simp only [hsw]
      rw [skipWs_cons_space, skipWs_dumpsVal]
      rw [parseVal_dumpsVal v hwfv f hfuv (dumpsMembers JsonObj.nil ++ (125 :: rest))
        (numStop_dumpsMembers JsonObj.nil rest)]
      have hsw2 : skipWs (dumpsMembers JsonObj.nil ++ (125 :: rest)) = 125 :: rest := by
        simp [dumpsMembers, skipWs, List.dropWhile_cons, isWsCp]
      simp [hsw2]
  | k, v, .cons k2 v2 tl2, hwfk, hwfv, hwft, fuel, hfu, rest => by
    cases fuel with
    | zero => simp only [rankMembers] at hfu; omega
    | succ f =>
      have hfuv : rankVal v ≤ f := by
        have := le_max_left (rankVal v) (rankMembers (JsonObj.cons k2 v2 tl2))
        simp only [rankMembers] at hfu
        omega
      have hshape : keyDump k ++ (dumpsVal v ++
          (dumpsMembers (JsonObj.cons k2 v2 tl2) ++ (125 :: rest))) =
          34 :: (escString k ++ (34 :: (58 :: (32 ::
            (dumpsVal v ++ (dumpsMembers (JsonObj.cons k2 v2 tl2) ++ (125 :: rest))))))) := by
        simp [keyDump, List.cons_append, List.append_assoc]
      rw [hshape]
      simp only [parseMembers]
      rw [parseStringBody_escString k hwfk _ _ (by simp [List.length_append]; omega)]
      have hsw : skipWs (58 :: (32 :: (dumpsVal v ++
          (dumpsMembers (JsonObj.cons k2 v2 tl2) ++ (125 :: rest))))) =
          58 :: (32 :: (dumpsVal v ++ (dumpsMembers (JsonObj.cons k2 v2 tl2) ++ (125 :: rest)))) := by
        simp [skipWs, List.dropWhile_cons, isWsCp]
      simp only [hsw]
      rw [skipWs_cons_space, skipWs_dumpsVal]
      rw [parseVal_dumpsVal v hwfv f hfuv (dumpsMembers (JsonObj.cons k2 v2 tl2) ++ (125 :: rest))
        (numStop_dumpsMembers (JsonObj.cons k2 v2 tl2) rest)]
      have hwf2 : (wfStr k2 = true ∧ wfVal v2 = true) ∧ wfMembers tl2 = true := by
        simpa [wfMembers] using hwft
      have hfu2 : rankMembers (.cons k2 v2 tl2) ≤ f := by
        simp only [rankMembers] at hfu ⊢
        have hm2 := le_max_right (rankVal v) (1 + max (rankVal v2) (rankMembers tl2))
        omega
      have hshape2 : dumpsMembers (JsonObj.cons k2 v2 tl2) ++ (125 :: rest) =
          44 :: (32 :: (keyDump k2 ++ (dumpsVal v2 ++ (dumpsMembers tl2 ++ (125 :: rest))))) := by
        simp [dumpsMembers, List.cons_append, List.append_assoc]
      rw [hshape2]
      have hsw2 : skipWs (44 :: (32 :: (keyDump k2 ++
          (dumpsVal v2 ++ (dumpsMembers tl2 ++ (125 :: rest)))))) =
          44 :: (32 :: (keyDump k2 ++ (dumpsVal v2 ++ (dumpsMembers tl2 ++ (125 :: rest))))) := by
        simp [skipWs, List.dropWhile_cons, isWsCp]
      dsimp only
      rw [hsw2]
      simp only [List.headD_cons, List.tail_cons]
      rw [if_pos trivial, skipWs_cons_space, skipWs_keyDump]
      rw [parseMembers_dumpsMembers k2 v2 tl2 hwf2.1.1 hwf2.1.2 hwf2.2 f hfu2 rest]
      simp
termination_by k v tl _ _ _ _ _ _ => 2 * (sizeOf v + sizeOf tl) + 1
decreasing_by all_goals (simp_wf; omega)
end

theorem json_loads_json_dumps (v : Json) (hwf : wfVal v = true) :
    json_loads (json_dumps v) = some v := by
  unfold json_loads json_dumps
  dsimp only
  have hsw : skipWs (dumpsVal v) = dumpsVal v := by
    have h := skipWs_dumpsVal v []
    simpa using h
  rw [hsw]
  have hp := parseVal_dumpsVal v hwf ((dumpsVal v).length + 1) (rankVal_le v) [] (by decide)
  rw [show dumpsVal v ++ ([] : List Nat) = dumpsVal v from by simp] at hp
  rw [hp]
  simp [skipWs]

theorem utf8Encode_ascii (l : List Nat) (h : ∀ c ∈ l, c < 128) : utf8Encode l = l := by
  induction l with
  | nil => rfl
  | cons c t ih =>
    have hc : c < 128 := h c (by simp)
    have h1 : utf8EncodeChar c = [c] := by
      unfold utf8EncodeChar
      rw [if_pos hc]
    rw [show utf8Encode (c :: t) = utf8EncodeChar c ++ utf8Encode t from rfl, h1,
      ih (fun x hx => h x (by simp [hx]))]
    rfl

theorem utf8DecodeAux_ascii (l : List Nat) (h : ∀ c ∈ l, c < 128) :
    utf8DecodeAux l.length l = some l := by
  induction l with
  | nil => rfl
  | cons c t ih =>
    have hc : c < 128 := h c (by simp)
    have h1 : utf8DecodeAux (c :: t).length (c :: t) =
        (utf8DecodeAux t.length t).map (c :: ·) := by
      simp only [List.length_cons, utf8DecodeAux]
      rw [if_pos hc]
    rw [h1, ih (fun x hx => h x (by simp [hx]))]
    rfl

theorem utf8Decode_ascii (l : List Nat) (h : ∀ c ∈ l, c < 128) : utf8Decode l = some l :=
  utf8DecodeAux_ascii l h

theorem leVal_le4 (n : Nat) (h : n < 4294967296) : leVal (le4 n) = n := by
  simp only [le4, leVal]
  omega

theorem take4_le4 (n : Nat) (x : List Nat) : (le4 n ++ x).take 4 = le4 n := by
  simp [le4]

theorem drop4_le4 (n : Nat) (x : List Nat) : (le4 n ++ x).drop 4 = x := by
  simp [le4]

/-- C3: decoding one framed message from a byte stream holding exactly the
encoding of a well-formed JSON value returns that value (with the stream
fully consumed): `read_native_message` after `write_native_message` is the
identity. -/
theorem c3_framed_roundtrip (v : Json) (hwf : wfVal v = true) (enc : List Nat)
    (henc : write_native_message v = some enc) :
    read_native_message enc = ReadResult.value v [] := by
  have hascii : ∀ c ∈ json_dumps v, c < 128 := fun c hc => dumpsVal_ascii v c hc
  have hid : utf8Encode (json_dumps v) = json_dumps v := utf8Encode_ascii _ hascii
  unfold write_native_message at henc
  rw [hid] at henc
  by_cases hlen : (json_dumps v).length < 4294967296
  · rw [if_pos hlen] at henc
    have henc2 : enc = le4 (json_dumps v).length ++ json_dumps v := by
      injection henc with h
      exact h.symm
    subst henc2
    have h4 : ¬((le4 (json_dumps v).length ++ json_dumps v).length < 4) := by
      simp [le4, List.length_append]
    simp only [read_native_message]
    rw [if_neg h4, take4_le4, drop4_le4, leVal_le4 _ hlen]
    rw [List.take_length, List.drop_length]
    rw [utf8Decode_ascii _ hascii]
    dsimp only
    rw [json_loads_json_dumps v hwf]
  · rw [if_neg hlen] at henc
    exact absurd henc (by simp)

/-- Concrete witness for the framed round trip: the message
`{"ok": true}` survives an encode/decode cycle. -/
theorem c3_framed_roundtrip_witness :
    wfVal (Json.obj (.cons (strCps "ok") (.bool true) .nil)) = true ∧
    write_native_message (Json.obj (.cons (strCps "ok") (.bool true) .nil)) =
      some ([12, 0, 0, 0] ++ strCps "\x7b\"ok\": true\x7d") ∧
    read_native_message ([12, 0, 0, 0] ++ strCps "\x7b\"ok\": true\x7d") =
      ReadResult.value (Json.obj (.cons (strCps "ok") (.bool true) .nil)) [] :=
  ⟨by decide, by decide,
    c3_framed_roundtrip _ (by decide) _ (by decide)⟩

theorem getCommand_preserves (s : SrvState) :
    ((getCommand s).2).pending_result = s.pending_result ∧
    ((getCommand s).2).result_event = s.result_event := by
  unfold getCommand
  cases hc : s.pending_command with
  | none => simp
  | some c =>
    by_cases ht : pyTruthy c
    · simp [ht]
    · simp [ht]

theorem do_GET_command (s : SrvState) : do_GET "/command" s = getCommand s := by
  simp [do_GET]

theorem waitWindow_noDeliver (ops : List (Nat × PeerOp)) :
    ∀ s : SrvState, noDeliver ops = true →
      (waitWindow ops s).2 = none ∧
      (waitWindow ops s).1.pending_result = s.pending_result := by
  induction ops with
  | nil => intro s _; simp [waitWindow]
  | cons p rest ih =>
    intro s h
    obtain ⟨t, op⟩ := p
    cases op with
    | poll =>
      have h2 : noDeliver rest = true := by
        simp only [noDeliver, List.all_cons, Bool.true_and] at h
        exact h
      have ihr := ih ((applyPeerOp PeerOp.poll s)) h2
      have hpres : (applyPeerOp PeerOp.poll s).pending_result = s.pending_result := by
        simp only [applyPeerOp, do_GET_command]
        exact (getCommand_preserves s).1
      simp only [waitWindow]
      exact ⟨ihr.1, by rw [ihr.2, hpres]⟩
    | deliver r =>
      simp only [noDeliver, List.all_cons] at h
      simp at h

theorem skipWs_spaces (B : Nat) : skipWs (List.replicate B 32) = [] := by
  induction B with
  | zero => rfl
  | succ b ih =>
    rw [List.replicate_succ, skipWs_cons_space]
    exact ih

theorem parseDigits_one_spaces (B : Nat) :
    parseDigits (49 :: List.replicate B 32) = some (1, List.replicate B 32) := by
  have ht : (List.replicate B 32).takeWhile isDigitCp = [] ∧
      (List.replicate B 32).dropWhile isDigitCp = List.replicate B 32 := by
    cases B with
    | zero => simp
    | succ b =>
      rw [List.replicate_succ]
      simp [List.takeWhile_cons, List.dropWhile_cons, isDigitCp]
  unfold parseDigits
  rw [List.takeWhile_cons, List.dropWhile_cons]
  simp [isDigitCp, ht.1, ht.2, digitsValue]

theorem json_loads_one_spaces (B : Nat) :
    json_loads (49 :: List.replicate B 32) = some (Json.int 1) := by
  unfold json_loads
  dsimp only
  have hsw : skipWs (49 :: List.replicate B 32) = 49 :: List.replicate B 32 := by
    simp [skipWs, List.dropWhile_cons, isWsCp]
  rw [hsw]
  have hlen : (49 :: List.replicate B 32).length = B + 1 := by simp
  rw [hlen]
  rw [parseVal_digit_step (B + 1) 49 (List.replicate B 32) (by omega) (by omega)]
  rw [parseDigits_one_spaces]
  simp [skipWs_spaces]

theorem read_big (B : Nat) (h : B < 4294967295) :
    read_native_message (le4 (B + 1) ++ (49 :: List.replicate B 32)) =
      ReadResult.value (Json.int 1) [] := by
  have hlen : ¬((le4 (B + 1) ++ (49 :: List.replicate B 32)).length < 4) := by
    simp [le4, List.length_append]
  simp only [read_native_message]
  rw [if_neg hlen, take4_le4, drop4_le4, leVal_le4 _ (by omega)]
  have hlen2 : (49 :: List.replicate B 32).length = B + 1 := by simp
  rw [show (49 :: List.replicate B 32).take (B + 1) = 49 :: List.replicate B 32 from by
    rw [← hlen2, List.take_length]]
  rw [show (49 :: List.replicate B 32).drop (B + 1) = [] from by
    rw [← hlen2, List.drop_length]]
  have hdec : utf8Decode (49 :: List.replicate B 32) = some (49 :: List.replicate B 32) := by
    refine utf8Decode_ascii _ ?_
    intro c hc
    rcases mem_cons_elim hc with hx | hx
    · omega
    · rw [List.eq_of_mem_replicate hx]
      omega
  rw [hdec]
  dsimp only
  rw [json_loads_one_spaces]

theorem do_POST_command_data (body : List Nat) (data : Json) (ops : List (Nat × PeerOp))
    (s : SrvState) (hbody : parseBody body = some data) :
    do_POST "/command" body ops s = postCommandData data ops s := by
  unfold do_POST
  rw [hbody]
  simp

theorem postCommandData_noDeliver (data : Json) (ops : List (Nat × PeerOp)) (s : SrvState)
    (hnod : noDeliver ops = true) :
    (postCommandData data ops s).1 = ⟨200, some (json_dumps
      (match s.pending_result with
       | some r => if pyTruthy r then r else timeoutJson
       | none => timeoutJson))⟩ ∧
    (postCommandData data ops s).2.2 = 30 := by
  have hww := waitWindow_noDeliver ops (submitCommand data s) hnod
  unfold postCommandData
  dsimp only
  rw [hww.1, hww.2]
  rw [show (submitCommand data s).pending_result = s.pending_result from rfl]
  exact ⟨rfl, rfl⟩

/-- C1: a `POST /command` whose body is valid JSON, with no `POST /result`
delivery during the 30-unit wait window and no stored result, is answered
with HTTP 200 and the exact body `{"error": "timeout"}`, after blocking for
the full 30 time units. -/
theorem c1_post_command_timeout (body : List Nat) (data : Json)
    (ops : List (Nat × PeerOp)) (s : SrvState)
    (hbody : parseBody body = some data)
    (hnod : noDeliver ops = true)
    (hres : s.pending_result = none) :
    (do_POST "/command" body ops s).1 =
      ⟨200, some (strCps "\x7b\"error\": \"timeout\"\x7d")⟩ ∧
    (do_POST "/command" body ops s).2.2 = 30 := by
  rw [do_POST_command_data body data ops s hbody]
  have h := postCommandData_noDeliver data ops s hnod
  rw [hres] at h
  refine ⟨?_, h.2⟩
  rw [h.1]
  rw [show json_dumps timeoutJson = strCps "\x7b\"error\": \"timeout\"\x7d" from by decide]

/-- Witness for C1: `POST /command` with body `1` against the start state
and an empty wait window times out with the literal error body. -/
theorem c1_post_command_timeout_witness :
    parseBody (strCps "1") = some (Json.int 1) ∧ noDeliver [] = true ∧
    initState.pending_result = none ∧
    (do_POST "/command" (strCps "1") [] initState).1 =
      ⟨200, some (strCps "\x7b\"error\": \"timeout\"\x7d")⟩ ∧
    (do_POST "/command" (strCps "1") [] initState).2.2 = 30 :=
  ⟨by decide, by decide, by decide,
    (c1_post_command_timeout (strCps "1") (Json.int 1) [] initState (by decide) (by decide)
      (by decide)).1,
    (c1_post_command_timeout (strCps "1") (Json.int 1) [] initState (by decide) (by decide)
      (by decide)).2⟩

/-- Counterexample to C2 as stated: with the falsy command `{}` pending,
`GET /command` answers 204 and leaves the slot set, instead of delivering
the pending command with 200 and clearing it. -/
theorem c2_falsy_pending_counterexample :
    (do_GET "/command" ⟨some (Json.obj .nil), none, false⟩).1.status = 204 ∧
    (do_GET "/command" ⟨some (Json.obj .nil), none, false⟩).2.pending_command =
      some (Json.obj .nil) :=
  ⟨by decide, by decide⟩

/-- C2 (amended): for every state whose pending command is truthy,
`GET /command` returns it as JSON with HTTP 200 and clears the slot, and an
immediately following `GET /command` answers HTTP 204 with no body. -/
theorem c2_poll_delivers_and_clears (s : SrvState) (c : Json)
    (hp : s.pending_command = some c) (ht : pyTruthy c = true) :
    do_GET "/command" s = (⟨200, some (json_dumps c)⟩, { s with pending_command := none }) ∧
    do_GET "/command" { s with pending_command := none } =
      (⟨204, none⟩, { s with pending_command := none }) := by
  rw [do_GET_command, do_GET_command]
  constructor
  · unfold getCommand
    rw [hp]
    simp [ht]
  · unfold getCommand
    simp

/-- Witness for C2 (amended): the pending command `5` is delivered once and
the second poll answers 204. -/
theorem c2_poll_delivers_and_clears_witness :
    (⟨some (Json.int 5), none, false⟩ : SrvState).pending_command = some (Json.int 5) ∧
    pyTruthy (Json.int 5) = true ∧
    (do_GET "/command" ⟨some (Json.int 5), none, false⟩ =
      (⟨200, some (json_dumps (Json.int 5))⟩, ⟨none, none, false⟩) ∧
    do_GET "/command" ⟨none, none, false⟩ = (⟨204, none⟩, ⟨none, none, false⟩)) :=
  ⟨rfl, by decide, c2_poll_delivers_and_clears ⟨some (Json.int 5), none, false⟩ (Json.int 5)
    rfl (by decide)⟩

/-- C4: submitting a second command while a first is pending overwrites the
single pending slot: after both submit phases the slot holds the second
command and no longer the first. -/
theorem c4_second_submit_overwrites (d1 d2 : Json) (s : SrvState) (hne : d1 ≠ d2) :
    (submitCommand d2 (submitCommand d1 s)).pending_command = some d2 ∧
    (submitCommand d2 (submitCommand d1 s)).pending_command ≠ some d1 := by
  refine ⟨rfl, ?_⟩
  intro h
  rw [show (submitCommand d2 (submitCommand d1 s)).pending_command = some d2 from rfl] at h
  injection h with h2
  exact hne h2.symm

/-- Witness for C4: the command `2` overwrites the pending command `1`. -/
theorem c4_second_submit_overwrites_witness :
    Json.int 1 ≠ Json.int 2 ∧
    (submitCommand (Json.int 2) (submitCommand (Json.int 1) initState)).pending_command =
      some (Json.int 2) ∧
    (submitCommand (Json.int 2) (submitCommand (Json.int 1) initState)).pending_command ≠
      some (Json.int 1) :=
  ⟨by decide, c4_second_submit_overwrites (Json.int 1) (Json.int 2) initState (by decide)⟩

/-- C5: a stream that closes before 4 header bytes are available makes
`read_native_message` return the `None` end-of-stream outcome rather than
raising. -/
theorem c5_short_header_eof (s : List Nat) (h : s.length < 4) :
    read_native_message s = ReadResult.eof := by
  unfold read_native_message
  rw [if_pos h]

/-- Witness for C5: a 3-byte stream yields end-of-stream. -/
theorem c5_short_header_eof_witness :
    ([1, 2, 3] : List Nat).length < 4 ∧ read_native_message [1, 2, 3] = ReadResult.eof :=
  ⟨by decide, c5_short_header_eof [1, 2, 3] (by decide)⟩

/-- C6 failing input: the header declares 5 payload bytes but the stream
closes after `123`; `read_native_message` performs no short-read check and
returns the value 123 parsed from the truncated payload, where the claim
requires a `FramingError`. -/
theorem c6_truncated_payload_returns_value :
    read_native_message [5, 0, 0, 0, 49, 50, 51] = ReadResult.value (Json.int 123) [] := by
  decide

/-- Counterexample to C7 as stated: no maximum-size bound exists below the
4-byte-header limit — for every candidate bound, some stream whose declared
length exceeds it is still decoded to a value instead of failing. -/
theorem c7_no_size_bound_counterexample :
    ¬ ∃ B, B < 4294967295 ∧ ∀ s : List Nat, 4 ≤ s.length → B < leVal (s.take 4) →
      read_native_message s = ReadResult.decodeError := by
  rintro ⟨B, hB, hall⟩
  have hread := read_big B hB
  have hlen : 4 ≤ (le4 (B + 1) ++ (49 :: List.replicate B 32)).length := by
    simp [le4]
  have hval : B < leVal ((le4 (B + 1) ++ (49 :: List.replicate B 32)).take 4) := by
    rw [take4_le4, leVal_le4 _ (by omega)]
    omega
  have hcontra := hall _ hlen hval
  rw [hread] at hcontra
  exact ReadResult.noConfusion hcontra

/-- C7 (amended): `read_native_message` enforces no maximum message size:
for every bound below the 32-bit header limit there is a stream whose
declared length exceeds the bound and which is read and parsed to a value
rather than rejected. -/
theorem c7_no_size_bound (B : Nat) (hB : B < 4294967295) :
    ∃ s : List Nat, B < leVal (s.take 4) ∧
      read_native_message s = ReadResult.value (Json.int 1) [] := by
  refine ⟨le4 (B + 1) ++ (49 :: List.replicate B 32), ?_, read_big B hB⟩
  rw [take4_le4, leVal_le4 _ (by omega)]
  omega

/-- Witness for C7 (amended), at the 64 MiB bound the spec suggests. -/
theorem c7_no_size_bound_witness :
    67108864 < 4294967295 ∧
    ∃ s : List Nat, 67108864 < leVal (s.take 4) ∧
      read_native_message s = ReadResult.value (Json.int 1) [] :=
  ⟨by decide, c7_no_size_bound 67108864 (by decide)⟩

/-- Counterexample to C8 as stated: the command server answers a malformed
JSON body (here a lone brace) with a bare 400 carrying no body at all, not
a JSON error payload. -/
theorem c8_bare_400_counterexample :
    (do_POST "/command" [123] [] initState).1.status = 400 ∧
    (do_POST "/command" [123] [] initState).1.body = none :=
  ⟨by decide, by decide⟩

/-- C8 (amended): a POST body that is not valid JSON is rejected before any
state change — the command server answers 400 with an empty body (for a
nonempty body; an empty body is instead treated as the empty dict), the
native host answers 400 with a JSON error payload; in both cases the shared
state is returned unchanged and nothing is written to the peer stream. -/
theorem c8_invalid_json_rejected :
    (∀ (path : String) (body : List Nat) (ops : List (Nat × PeerOp)) (s : SrvState),
      body ≠ [] → json_loads body = none →
      do_POST path body ops s = (⟨400, none⟩, s, 0)) ∧
    (∀ (body stream : List Nat) (hs : HostState), json_loads body = none →
      host_do_POST body stream hs =
        (⟨400, some (hostErrorBody (strCps "Invalid JSON"))⟩, [], hs)) := by
  constructor
  · intro path body ops s hne hnone
    unfold do_POST parseBody
    cases body with
    | nil => exact absurd rfl hne
    | cons b t =>
      dsimp only
      rw [hnone]
  · intro body stream hs hnone
    unfold host_do_POST
    rw [hnone]

/-- Witness for C8 (amended): the body consisting of a lone opening brace
is rejected by both handlers. -/
theorem c8_invalid_json_rejected_witness :
    ([123] : List Nat) ≠ [] ∧ json_loads [123] = none ∧
    do_POST "/result" [123] [] initState = (⟨400, none⟩, initState, 0) ∧
    host_do_POST [123] [] ⟨0⟩ =
      (⟨400, some (hostErrorBody (strCps "Invalid JSON"))⟩, [], ⟨0⟩) :=
  ⟨by decide, by decide,
    c8_invalid_json_rejected.1 "/result" [123] [] initState (by decide) (by decide),
    c8_invalid_json_rejected.2 [123] [] ⟨0⟩ (by decide)⟩

/-- Counterexample to C9 as stated: a stale falsy result (the empty dict)
is not echoed back — the blocked `POST /command` still answers with the
timeout body, because `result or ...` tests truthiness. -/
theorem c9_falsy_stale_counterexample :
    (do_POST "/command" (strCps "1") []
        ((postResult (Json.obj .nil) initState).2)).1.body =
      some (strCps "\x7b\"error\": \"timeout\"\x7d") ∧
    some (strCps "\x7b\"error\": \"timeout\"\x7d") ≠ some (json_dumps (Json.obj .nil)) :=
  ⟨by decide, by decide⟩

/-- C9 (amended): a truthy result deposited while no command was waiting is
not discarded: a later `POST /command` with no further delivery blocks the
full 30-unit deadline and then returns the stale result as its body instead
of the timeout body, because submitting clears the event but not the stored
result. -/
theorem c9_stale_result_returned (r0 : Json) (body : List Nat) (data : Json)
    (ops : List (Nat × PeerOp)) (s : SrvState)
    (hbody : parseBody body = some data)
    (htruthy : pyTruthy r0 = true)
    (hnod : noDeliver ops = true) :
    (do_POST "/command" body ops ((postResult r0 s).2)).1 =
      ⟨200, some (json_dumps r0)⟩ ∧
    (do_POST "/command" body ops ((postResult r0 s).2)).2.2 = 30 := by
  rw [do_POST_command_data body data ops _ hbody]
  have h := postCommandData_noDeliver data ops ((postResult r0 s).2) hnod
  rw [show ((postResult r0 s).2).pending_result = some r0 from rfl] at h
  refine ⟨?_, h.2⟩
  rw [h.1]
  simp [htruthy]

/-- Witness for C9 (amended): the stale result `{"ok": true}` is returned
to a later `POST /command` after the full deadline. -/
theorem c9_stale_result_returned_witness :
    parseBody (strCps "1") = some (Json.int 1) ∧
    pyTruthy (Json.obj (.cons (strCps "ok") (.bool true) .nil)) = true ∧
    noDeliver [] = true ∧
    (do_POST "/command" (strCps "1") []
        ((postResult (Json.obj (.cons (strCps "ok") (.bool true) .nil)) initState).2)).1 =
      ⟨200, some (json_dumps (Json.obj (.cons (strCps "ok") (.bool true) .nil)))⟩ ∧
    (do_POST "/command" (strCps "1") []
        ((postResult (Json.obj (.cons (strCps "ok") (.bool true) .nil)) initState).2)).2.2 =
      30 :=
  ⟨by decide, by decide, by decide,
    (c9_stale_result_returned (Json.obj (.cons (strCps "ok") (.bool true) .nil))
      (strCps "1") (Json.int 1) [] initState (by decide) (by decide) (by decide)).1,
    (c9_stale_result_returned (Json.obj (.cons (strCps "ok") (.bool true) .nil))
      (strCps "1") (Json.int 1) [] initState (by decide) (by decide) (by decide)).2⟩

/-- C10: a `POST /command` whose body parses to a falsy value (empty dict,
empty string, null, 0, false — and an empty body, which the handler turns
into the empty dict) stores a command that `GET /command` never delivers:
the poll answers 204 and leaves the slot as it was, while the submitting
caller still blocks for the full 30-unit deadline when no result arrives. -/
theorem c10_falsy_command_not_delivered (body : List Nat) (data : Json)
    (ops : List (Nat × PeerOp)) (s : SrvState)
    (hbody : parseBody body = some data)
    (hfalsy : pyTruthy data = false)
    (hnod : noDeliver ops = true) :
    do_GET "/command" (submitCommand data s) = (⟨204, none⟩, submitCommand data s) ∧
    (do_POST "/command" body ops s).2.2 = 30 := by
  constructor
  · rw [do_GET_command]
    unfold getCommand
    rw [show (submitCommand data s).pending_command = some data from rfl]
    simp [hfalsy]
  · rw [do_POST_command_data body data ops s hbody]
    exact (postCommandData_noDeliver data ops s hnod).2

/-- Witness for C10: an empty body becomes the empty dict; the poll answers
204 and the poster waits the full deadline. -/
theorem c10_falsy_command_not_delivered_witness :
    parseBody [] = some (Json.obj .nil) ∧
    pyTruthy (Json.obj .nil) = false ∧
    noDeliver [(5, PeerOp.poll)] = true ∧
    do_GET "/command" (submitCommand (Json.obj .nil) initState) =
      (⟨204, none⟩, submitCommand (Json.obj .nil) initState) ∧
    (do_POST "/command" [] [(5, PeerOp.poll)] initState).2.2 = 30 :=
  ⟨by decide, by decide, by decide,
    (c10_falsy_command_not_delivered [] (Json.obj .nil) [(5, PeerOp.poll)] initState
      (by decide) (by decide) (by decide)).1,
    (c10_falsy_command_not_delivered [] (Json.obj .nil) [(5, PeerOp.poll)] initState
      (by decide) (by decide) (by decide)).2⟩
